import Mathlib

/-!
# SmileyCoin proof-of-work retargeting (`src/pow.cpp`, `src/multialgo/multialgo.h`)

A shallow embedding of the difficulty retargeting code and proofs about it.

Conventions of the embedding

* `int` and `int64_t` values are `Int`; signed overflow is undefined behaviour in C++
  and lies outside the model, as do values that do not fit their C++ type.  `/` and `%`
  on them truncate toward zero (`Int.tdiv`, `Int.tmod`) and fail on a zero divisor.
* `unsigned int` and `arith_uint256` values are `Nat`, reduced `% 2 ^ 32` and
  `% 2 ^ 256` wherever the C++ operation can wrap.
* A `const CBlockIndex*` is the list of block-index entries reached from it through
  `pprev`, the pointed-to entry first; `nullptr` is the empty list.
* Code that can abort (a failed `assert`, a division by zero, a null dereference)
  returns `Except PowError`.
-/

namespace SmileyPow

/-! ## Failure -/

/-- The ways in which the C++ code can stop without returning a value. -/
inductive PowError where
  | assertion
  | divisionByZero
  | nullDereference
deriving DecidableEq, Repr

/-- A computation that either aborts or returns a value. -/
abbrev Result (α : Type) := Except PowError α

deriving instance DecidableEq for Except

/-- C++ `a / b` on signed integers: truncation toward zero, failing on `b == 0`. -/
def cdiv (a b : Int) : Result Int :=
  if b = 0 then .error .divisionByZero else .ok (a.tdiv b)

/-- C++ `a % b` on signed integers: remainder of the truncating division, failing on `b == 0`. -/
def cmod (a b : Int) : Result Int :=
  if b = 0 then .error .divisionByZero else .ok (a.tmod b)

/-! ## Data model -/

/-- Modelled from the spec: `Consensus::Params` is declared outside `pow.cpp` and
`multialgo.h`.  The fields are the ones these two files read, under the names they use
(spec §3 lists the same constants); `powLimit` is the number its 256-bit blob denotes. -/
structure Params where
  powLimit : Nat
  nPowTargetSpacing : Int
  nPowTargetTimespan : Int
  nPowOriginalTargetTimespan : Int
  fPowAllowMinDifficultyBlocks : Bool
  fPowNoRetargeting : Bool
  FirstTimespanChangeHeight : Int
  MultiAlgoForkHeight : Int
  MultiAlgoTimespanForkHeight : Int
  DifficultyChangeForkHeight : Int
  nMultiAlgoNum : Int
  nMultiAlgoTimespan : Int
  nMultiAlgoTimespanV2 : Int
  nMultiAlgoTargetSpacing : Int
  nMultiAlgoAveragingInterval : Int
  nMultiAlgoAveragingIntervalV2 : Int
  MultiAlgoMaxAdjustUp : Int
  MultiAlgoMaxAdjustUpV2 : Int
  MultiAlgoMaxAdjustDown : Int
  MultiAlgoMaxAdjustDownV2 : Int
deriving DecidableEq

/-- Modelled from the spec: `CBlockIndex` is declared outside `pow.cpp` and `multialgo.h`.
One entry of the block index, without its `pprev` link (the link is the tail of the `Chain`
the entry heads), with what the code reads of it: `nHeight`, `nTime` (also `GetBlockTime()`),
`GetMedianTimePast()`, `nBits`, `GetAlgo()`.  As in spec §3 the median-time-past is a value
the chain index supplies. -/
structure CBlockIndex where
  nHeight : Int
  nTime : Int
  nMedianTimePast : Int
  nBits : Nat
  nAlgo : Int
deriving DecidableEq, Repr

/-- A `const CBlockIndex*`: the pointed-to entry followed by its ancestors; `[]` is `nullptr`. -/
abbrev Chain := List CBlockIndex

/-- Modelled from the spec: `CBlockHeader` is declared outside `pow.cpp` and `multialgo.h`.
What the code reads of the candidate header: `GetBlockTime()` and `GetAlgo()` (spec §6). -/
structure CBlockHeader where
  nTime : Int
  nAlgo : Int
deriving DecidableEq, Repr

/-- Identifiers that `GetNextMultiAlgoWorkRequired` reads although nothing gives them a value:
`bnNew` and `multiAlgoTargetSpacing` are declared nowhere in `pow.cpp` or `multialgo.h`, and
the local `nAveragingTargetTimespan` is read before its first assignment when `fDiffChange`
is false.  Their values are parameters of the model. -/
structure Unbound where
  bnNew : Nat
  multiAlgoTargetSpacing : Int
  nAveragingTargetTimespan : Int
deriving DecidableEq, Repr

/-! ## 256-bit arithmetic and the compact codec -/

/-- `UintToArith256`: the 256-bit unsigned number a `uint256` blob denotes. -/
def UintToArith256 (u : Nat) : Nat := u % 2 ^ 256

/-- Scan of the bit positions `k - 1, …, 0` from the top: one more than the position of the
highest set bit below `k`, or `0`. -/
def bitsFrom : Nat → Nat → Nat
  | 0, _ => 0
  | k + 1, x => if 2 ^ k ≤ x then k + 1 else bitsFrom k x

/-- Modelled from the spec: `arith_uint256::bits()` is defined outside `pow.cpp`; this is the
bit length spec §4.4 refers to, one more than the position of the highest set bit of a
256-bit number and `0` for zero. -/
def bits (x : Nat) : Nat := bitsFrom 256 x

/-- The three outputs of decoding a compact value. -/
structure Decoded where
  target : Nat
  fNegative : Bool
  fOverflow : Bool
deriving DecidableEq, Repr

/-- Modelled from the spec: `arith_uint256::SetCompact` is defined outside `pow.cpp`.  Spec §3
and §4.1 give the layout of a compact value (exponent byte, sign bit, 23-bit mantissa) and
the two flags of its decoding, and §6 fixes the encoding to the network-wide convention,
which is the one written here. -/
def SetCompact (nCompact : Nat) : Decoded :=
  let nSize := nCompact >>> 24
  let nWord0 := nCompact &&& 0x007fffff
  let nWord := if nSize ≤ 3 then nWord0 >>> (8 * (3 - nSize)) else nWord0
  let target := if nSize ≤ 3 then nWord else (nWord <<< (8 * (nSize - 3))) % 2 ^ 256
  { target := target
    fNegative := decide (nWord ≠ 0) && decide (nCompact &&& 0x00800000 ≠ 0)
    fOverflow := decide (nWord ≠ 0) &&
      (decide (nSize > 34) || (decide (nWord > 0xff) && decide (nSize > 33)) ||
        (decide (nWord > 0xffff) && decide (nSize > 32))) }

/-- Modelled from the spec: `arith_uint256::GetCompact` is defined outside `pow.cpp`.  The
encoding of a 256-bit number as a compact value, called without a sign: the inverse mapping
of spec §4.1 in the network-wide convention. -/
def GetCompact (x : Nat) : Nat :=
  let nSize := (bits x + 7) / 8
  let nCompact :=
    if nSize ≤ 3 then ((x % 2 ^ 64) <<< (8 * (3 - nSize))) % 2 ^ 32
    else ((x >>> (8 * (nSize - 3))) % 2 ^ 64) % 2 ^ 32
  let fSign := decide (nCompact &&& 0x00800000 ≠ 0)
  let nCompact1 := if fSign then nCompact >>> 8 else nCompact
  let nSize1 := if fSign then nSize + 1 else nSize
  (nCompact1 ||| (nSize1 <<< 24)) % 2 ^ 32

/-- Conversion of an `int64_t` to `uint64_t` (reduction modulo `2 ^ 64`). -/
def toU64 (a : Int) : Nat := (a % 2 ^ 64).toNat

/-- Modelled from the spec: the operators of `arith_uint256` are defined outside `pow.cpp`.
`bnNew *= a` for an `int64_t` operand, as spec §4.4 has it (`newTarget * actualTimespan`): the
product with the operand converted to an unsigned number, kept to 256 bits. -/
def mulU256 (x : Nat) (a : Int) : Nat := (x * toU64 a) % 2 ^ 256

/-- Modelled from the spec: the operators of `arith_uint256` are defined outside `pow.cpp`.
`bnNew /= a` for an `int64_t` operand, as spec §4.4 has it (`/ targetTimespan`): the quotient
by the operand converted to an unsigned number; a zero divisor fails. -/
def divU256 (x : Nat) (a : Int) : Result Nat :=
  if toU64 a = 0 then .error .divisionByZero else .ok (x / toU64 a)

/-- Modelled from the spec: `fPowAllowwMinDifficultyBlocks` is a field that nothing in
`pow.cpp` or `multialgo.h` sets apart from `fPowAllowMinDifficultyBlocks`; spec §4.3 reads it
as "minimum-difficulty-blocks-allowed is enabled for the network". -/
def fPowAllowwMinDifficultyBlocks (params : Params) : Bool := params.fPowAllowMinDifficultyBlocks

/-- Modelled from the spec: `nTargetSpacing` is read by `GetLastBlockIndexForAlgo` only; spec
§4.3 reads it as "the base target spacing". -/
def nTargetSpacing (params : Params) : Int := params.nPowTargetSpacing

/-! ## Parameter resolver (`multialgo.h`) -/

/-- `DifficultyAdjustmentInterval` (multialgo.h:19-25). -/
def DifficultyAdjustmentInterval (params : Params) (nHeight : Int) : Result Int :=
  if nHeight < params.FirstTimespanChangeHeight then
    cdiv params.nPowOriginalTargetTimespan params.nPowTargetSpacing
  else
    cdiv params.nPowTargetTimespan params.nPowTargetSpacing

/-- `MultiAlgoTimespan` (multialgo.h:28-34). -/
def MultiAlgoTimespan (params : Params) (nHeight : Int) : Int :=
  if nHeight < params.MultiAlgoTimespanForkHeight then params.nMultiAlgoTimespan
  else params.nMultiAlgoTimespanV2

/-- `MultiAlgoTargetSpacing` (multialgo.h:36-39).  The source takes only `nHeight` and reads
`params` without declaring it; the parameter set is passed explicitly here. -/
def MultiAlgoTargetSpacing (params : Params) (nHeight : Int) : Int :=
  params.nMultiAlgoNum * MultiAlgoTimespan params nHeight

/-- `MultiAlgoAveragingInterval` (multialgo.h:41-47): the V2 value is selected *below*
`DifficultyChangeForkHeight`. -/
def MultiAlgoAveragingInterval (params : Params) (nHeight : Int) : Int :=
  if nHeight < params.DifficultyChangeForkHeight then params.nMultiAlgoAveragingIntervalV2
  else params.nMultiAlgoAveragingInterval

/-- `MultiAlgoAveragingTargetTimespan` (multialgo.h:50-53); `paramss` in the source is read as
`params`. -/
def MultiAlgoAveragingTargetTimespan (params : Params) (nHeight : Int) : Int :=
  MultiAlgoAveragingInterval params nHeight * MultiAlgoTargetSpacing params nHeight

/-- `MultiAlgoMaxAdjustUp` (multialgo.h:55-61). -/
def MultiAlgoMaxAdjustUp (params : Params) (nHeight : Int) : Int :=
  if nHeight < params.DifficultyChangeForkHeight then params.MultiAlgoMaxAdjustUp
  else params.MultiAlgoMaxAdjustUpV2

/-- `MultiAlgoMaxAdjustDown` (multialgo.h:63-69). -/
def MultiAlgoMaxAdjustDown (params : Params) (nHeight : Int) : Int :=
  if nHeight < params.DifficultyChangeForkHeight then params.MultiAlgoMaxAdjustDown
  else params.MultiAlgoMaxAdjustDownV2

/-- `MultiAlgoMinActualTimeSpan` (multialgo.h:72-75); the source's `MaxAdjustUp` is read as
`MultiAlgoMaxAdjustUp` and the missing `params` argument is supplied. -/
def MultiAlgoMinActualTimeSpan (params : Params) (nHeight : Int) : Int :=
  (MultiAlgoAveragingTargetTimespan params nHeight *
    (100 - MultiAlgoMaxAdjustUp params nHeight)).tdiv 100

/-- `MultiAlgoMaxActualTimeSpan` (multialgo.h:78-81); the source's `MaxAdjustDown` is read as
`MultiAlgoMaxAdjustDown` and the missing `params` argument is supplied. -/
def MultiAlgoMaxActualTimeSpan (params : Params) (nHeight : Int) : Int :=
  (MultiAlgoAveragingTargetTimespan params nHeight *
    (100 + MultiAlgoMaxAdjustDown params nHeight)).tdiv 100

/-! ## Ancestor walks -/

/-- The loop `for (int i = 0; pindexFirst && i < n; i++) pindexFirst = pindexFirst->pprev;`
(pow.cpp:57-58 and 91-94) for a bound of `n` iterations: follow `pprev` until `n` links have
been followed or the pointer is null. -/
def goBack : Nat → Chain → Chain
  | 0, c => c
  | _ + 1, [] => []
  | n + 1, _ :: pprev => goBack n pprev

/-- `GetLastBlockIndexForAlgo` (pow.cpp:181-197).  The source leaves its `Params` argument
unnamed and reads `params` all the same; the argument is the parameter set read here. -/
def GetLastBlockIndexForAlgo : Chain → Params → Int → Chain
  | [], _, _ => []
  | pindex :: pprev, params, algo =>
    if pindex.nAlgo ≠ algo then GetLastBlockIndexForAlgo pprev params algo
    else if fPowAllowwMinDifficultyBlocks params &&
        (match pprev with
         | [] => false
         | prev :: _ => decide (pindex.nTime > prev.nTime + nTargetSpacing params * 2))
      then GetLastBlockIndexForAlgo pprev params algo
    else pindex :: pprev

/-! ## Legacy retarget -/

/-- The target timespan `CalculateNextWorkRequired` selects (pow.cpp:130-132). -/
def legacyTargetTimespan (pindexLast : CBlockIndex) (params : Params) : Int :=
  if pindexLast.nHeight < params.FirstTimespanChangeHeight then params.nPowOriginalTargetTimespan
  else params.nPowTargetTimespan

/-- The two `if`s limiting the adjustment step (pow.cpp:136-139), applied to a timespan `t`
for the target timespan `T`. -/
def limitAdjustmentStep (T t : Int) : Int :=
  let t1 := if t < T.tdiv 4 then T.tdiv 4 else t
  if t1 > T * 4 then T * 4 else t1

/-- The value of `nActualTimespan` that `CalculateNextWorkRequired` multiplies by
(pow.cpp:135-139). -/
def legacyActualTimespan (pindexLast : CBlockIndex) (nFirstBlockTime : Int) (params : Params) :
    Int :=
  limitAdjustmentStep (legacyTargetTimespan pindexLast params) (pindexLast.nTime - nFirstBlockTime)

/-- The retarget proper (pow.cpp:141-159): from the old compact value, the timespan to
multiply by, the timespan to divide by and the floor, the new compact value.  The
subtraction in `bnPowLimit.bits() - 1` is one of `unsigned int`. -/
def retarget (nBits : Nat) (nActualTimespan nPowTargetTimespan : Int) (powLimit : Nat) :
    Result Nat := do
  let bnNew := (SetCompact nBits).target
  let bnPowLimit := UintToArith256 powLimit
  let fShift := decide (bits bnNew > (bits bnPowLimit + 2 ^ 32 - 1) % 2 ^ 32)
  let bnNew1 := if fShift then bnNew >>> 1 else bnNew
  let bnNew2 := mulU256 bnNew1 nActualTimespan
  let bnNew3 ← divU256 bnNew2 nPowTargetTimespan
  let bnNew4 := if fShift then (bnNew3 <<< 1) % 2 ^ 256 else bnNew3
  let bnNew5 := if bnNew4 > bnPowLimit then bnPowLimit else bnNew4
  .ok (GetCompact bnNew5)

/-- `CalculateNextWorkRequired` (pow.cpp:124-160). -/
def CalculateNextWorkRequired (pindexLast : CBlockIndex) (nFirstBlockTime : Int)
    (params : Params) : Result Nat :=
  if params.fPowNoRetargeting then .ok pindexLast.nBits
  else
    retarget pindexLast.nBits (legacyActualTimespan pindexLast nFirstBlockTime params)
      (legacyTargetTimespan pindexLast params) params.powLimit

/-- The loop returning the last block not mined under the special minimum-difficulty rule
(pow.cpp:39-42): walk back while a parent exists, the height is off the adjustment interval
and the bits equal the floor; return the bits of the entry the walk stops on. -/
def lastNonMinDifficultyBits (params : Params) (nProofOfWorkLimit : Nat) : Chain → Result Nat
  | [] => .error .nullDereference
  | [pindex] => .ok pindex.nBits
  | pindex :: prev :: rest => do
    let interval ← DifficultyAdjustmentInterval params pindex.nHeight
    let r ← cmod pindex.nHeight interval
    if r ≠ 0 ∧ pindex.nBits = nProofOfWorkLimit then
      lastNonMinDifficultyBits params nProofOfWorkLimit (prev :: rest)
    else .ok pindex.nBits

/-- The value of `blockstogoback` (pow.cpp:51-53) for a tip of height `nHeight`. -/
def blocksToGoBack (params : Params) (nHeight : Int) : Result Int := do
  let interval ← DifficultyAdjustmentInterval params (nHeight + 1)
  if nHeight + 1 ≠ interval then .ok interval else .ok (interval - 1)

/-- The legacy branch of `GetNextWorkRequired` (pow.cpp:25-62), entered with a non-null
`pindexLast` whose next height is below `MultiAlgoForkHeight`. -/
def GetNextWorkRequiredLegacy : Chain → CBlockHeader → Params → Result Nat
  | [], _, _ => .error .nullDereference
  | pindexLast :: pprev, pblock, params => do
    let nProofOfWorkLimit := GetCompact (UintToArith256 params.powLimit)
    let interval ← DifficultyAdjustmentInterval params (pindexLast.nHeight + 1)
    let r ← cmod (pindexLast.nHeight + 1) interval
    if r ≠ 0 then
      if params.fPowAllowMinDifficultyBlocks then
        if pblock.nTime > pindexLast.nTime + params.nPowTargetSpacing * 2 then
          .ok nProofOfWorkLimit
        else lastNonMinDifficultyBits params nProofOfWorkLimit (pindexLast :: pprev)
      else .ok pindexLast.nBits
    else do
      let blockstogoback ← blocksToGoBack params pindexLast.nHeight
      match goBack blockstogoback.toNat (pindexLast :: pprev) with
      | [] => .error .assertion
      | pindexFirst :: _ => CalculateNextWorkRequired pindexLast pindexFirst.nTime params

/-! ## Multi-algorithm retarget -/

/-- The locals of `GetNextMultiAlgoWorkRequired` after pow.cpp:113, with the parameter set as
the assignment of pow.cpp:101 leaves it. -/
structure MultiAlgoLocals where
  nActualTimespan : Int
  nAveragingTargetTimespan : Int
  params : Params
deriving DecidableEq

/-- Lines pow.cpp:101-113 of `GetNextMultiAlgoWorkRequired`: the write to
`params.nMultiAlgoTargetSpacing`, the median-time difference and its damping, in the two
branches on `fDiffChange`. -/
def multiAlgoTimespans (u : Unbound) (pindexLast pindexFirst : CBlockIndex) (params : Params) :
    MultiAlgoLocals :=
  let fDiffChange := decide (pindexLast.nHeight ≥ params.DifficultyChangeForkHeight)
  let nAveragingInterval := MultiAlgoAveragingInterval params pindexLast.nHeight
  let params1 : Params :=
    { params with nMultiAlgoTargetSpacing := MultiAlgoTimespan params pindexLast.nHeight }
  let nActualTimespan := pindexLast.nMedianTimePast - pindexFirst.nMedianTimePast
  if fDiffChange then
    let nAveragingTargetTimespan :=
      params1.nMultiAlgoAveragingIntervalV2 * params1.nMultiAlgoTargetSpacing
    { nActualTimespan :=
        nAveragingTargetTimespan + (nActualTimespan - nAveragingTargetTimespan).tdiv 4
      nAveragingTargetTimespan := nAveragingTargetTimespan
      params := params1 }
  else
    { nActualTimespan :=
        u.nAveragingTargetTimespan + (nActualTimespan - u.nAveragingTargetTimespan).tdiv 4
      nAveragingTargetTimespan := nAveragingInterval * u.multiAlgoTargetSpacing
      params := params1 }

/-- `GetNextMultiAlgoWorkRequired` (pow.cpp:68-122) with the parameter set it leaves behind:
the function writes `params.nMultiAlgoTargetSpacing` on the boundary path (pow.cpp:101).
On that path the source returns `bnNew.GetCompact()` for a `bnNew` it never declares. -/
def GetNextMultiAlgoWorkRequiredSt (u : Unbound) :
    Chain → CBlockHeader → Params → Result (Nat × Params)
  | [], _, _ => .error .nullDereference
  | pindexLast :: pprev, pblock, params => do
    let algo := pblock.nAlgo
    let nProofOfWorkLimit := GetCompact (UintToArith256 params.powLimit)
    let interval ← DifficultyAdjustmentInterval params (pindexLast.nHeight + 1)
    let r ← cmod (pindexLast.nHeight + 1) interval
    if r ≠ 0 then
      if params.fPowAllowMinDifficultyBlocks ∧
          pblock.nTime > pindexLast.nTime + params.nPowTargetSpacing * 2 then
        .ok (nProofOfWorkLimit, params)
      else .ok (pindexLast.nBits, params)
    else
      let nAveragingInterval := MultiAlgoAveragingInterval params pindexLast.nHeight
      let pindexFirst :=
        goBack (params.nMultiAlgoNum * nAveragingInterval).toNat (pindexLast :: pprev)
      let pindexPrevAlgo := GetLastBlockIndexForAlgo (pindexLast :: pprev) params algo
      match pindexPrevAlgo, pindexFirst with
      | [], _ => .ok (nProofOfWorkLimit, params)
      | _ :: _, [] => .ok (nProofOfWorkLimit, params)
      | _ :: _, first :: _ =>
        .ok (GetCompact (u.bnNew % 2 ^ 256), (multiAlgoTimespans u pindexLast first params).params)

/-- `GetNextMultiAlgoWorkRequired` (pow.cpp:68-122): the value returned. -/
def GetNextMultiAlgoWorkRequired (u : Unbound) (pindexLast : Chain) (pblock : CBlockHeader)
    (params : Params) : Result Nat :=
  (GetNextMultiAlgoWorkRequiredSt u pindexLast pblock params).map Prod.fst

/-- `GetNextWorkRequired` (pow.cpp:19-66). -/
def GetNextWorkRequired (u : Unbound) : Chain → CBlockHeader → Params → Result Nat
  | [], _, _ => .error .assertion
  | pindexLast :: pprev, pblock, params =>
    if pindexLast.nHeight + 1 < params.MultiAlgoForkHeight then
      GetNextWorkRequiredLegacy (pindexLast :: pprev) pblock params
    else GetNextMultiAlgoWorkRequired u (pindexLast :: pprev) pblock params

/-! ## Proof-of-work check -/

/-- `CheckProofOfWork` (pow.cpp:162-179); `hash` is the number the 256-bit blob denotes. -/
def CheckProofOfWork (hash : Nat) (nBits : Nat) (params : Params) : Bool :=
  let d := SetCompact nBits
  if d.fNegative || decide (d.target = 0) || d.fOverflow ||
      decide (d.target > UintToArith256 params.powLimit) then false
  else if UintToArith256 hash > d.target then false
  else true

/-! ## Example data -/

/-- A small parameter set: legacy interval `4 / 1 = 4`, multi-algorithm rules from height 100. -/
def demoParams : Params :=
  { powLimit := 2 ^ 236 - 1
    nPowTargetSpacing := 1
    nPowTargetTimespan := 4
    nPowOriginalTargetTimespan := 4
    fPowAllowMinDifficultyBlocks := false
    fPowNoRetargeting := false
    FirstTimespanChangeHeight := 0
    MultiAlgoForkHeight := 100
    MultiAlgoTimespanForkHeight := 0
    DifficultyChangeForkHeight := 0
    nMultiAlgoNum := 1
    nMultiAlgoTimespan := 180
    nMultiAlgoTimespanV2 := 180
    nMultiAlgoTargetSpacing := 0
    nMultiAlgoAveragingInterval := 1
    nMultiAlgoAveragingIntervalV2 := 1
    MultiAlgoMaxAdjustUp := 20
    MultiAlgoMaxAdjustUpV2 := 8
    MultiAlgoMaxAdjustDown := 40
    MultiAlgoMaxAdjustDownV2 := 16 }

/-- A block-index entry of algorithm `0` at the compact floor of `demoParams`, with its
median-time-past equal to its time. -/
def demoBlock (nHeight nTime : Int) : CBlockIndex :=
  { nHeight := nHeight, nTime := nTime, nMedianTimePast := nTime, nBits := 0x1e0fffff,
    nAlgo := 0 }

/-- A candidate header of algorithm `0`. -/
def demoHeader (nTime : Int) : CBlockHeader := { nTime := nTime, nAlgo := 0 }

/-- Values for the identifiers the source leaves unbound. -/
def demoUnbound : Unbound := { bnNew := 0, multiAlgoTargetSpacing := 0, nAveragingTargetTimespan := 0 }

/-- `demoParams` with the multi-algorithm rules active from genesis. -/
def multiAlgoDemoParams : Params := { demoParams with MultiAlgoForkHeight := 0 }

/-- A block-index entry like `demoBlock` with a median-time-past of its own. -/
def demoBlockMedian (nHeight nTime nMedianTimePast : Int) : CBlockIndex :=
  { demoBlock nHeight nTime with nMedianTimePast := nMedianTimePast }

/-! ## Notions used to state the properties -/

/-- The lookback depth as the specification words it (§4.4 step 3): `interval - 1` blocks,
except `interval` blocks when `tip.height + 1 == interval`. -/
def specLookbackDepth (interval nHeight : Int) : Int :=
  if nHeight + 1 = interval then interval else interval - 1

/-- The clamp of `t` to the interval `[lo, hi]`, as the specification words the legacy clamp
law (§4.4, §8): `lo` below the interval, `hi` above it, `t` itself inside. -/
def clampTo (lo hi t : Int) : Int := max lo (min t hi)

/-- Every entry of the chain is exactly `spacing` seconds after its parent. -/
def spacedBy (spacing : Int) : Chain → Bool
  | [] => true
  | [_] => true
  | pindex :: prev :: rest =>
    decide (pindex.nTime = prev.nTime + spacing) && spacedBy spacing (prev :: rest)

/-- A block-index entry like `demoBlock` with bits of its own. -/
def demoBlockBits (nHeight nTime : Int) (nBits : Nat) : CBlockIndex :=
  { demoBlock nHeight nTime with nBits := nBits }

/-- The chain of `demoBlock`s of heights `n, n - 1, …, 0`, each at the time of its height. -/
def demoChainFrom : Nat → Chain
  | 0 => [demoBlock 0 0]
  | n + 1 => demoBlock (n + 1) (n + 1) :: demoChainFrom n

/-- The multi-algorithm parameters of the comment at pow.cpp:108, `2 * 5 * 180`: five
algorithms, averaging interval 2, timespan 180, active from genesis. -/
def fiveAlgoParams : Params :=
  { demoParams with
    MultiAlgoForkHeight := 0
    nMultiAlgoNum := 5
    nMultiAlgoAveragingInterval := 2
    nMultiAlgoAveragingIntervalV2 := 2 }

/-- `multiAlgoDemoParams` before the difficulty-formula change (`fDiffChange` false below
height 100). -/
def preChangeParams : Params := { multiAlgoDemoParams with DifficultyChangeForkHeight := 100 }

/-- `demoUnbound` with another value left in the uninitialised `nAveragingTargetTimespan`. -/
def otherUnbound : Unbound := { demoUnbound with nAveragingTargetTimespan := 4000 }

/-- `demoParams` with the legacy timespan changing from 2 to 4 at height 4. -/
def timespanForkParams : Params :=
  { demoParams with FirstTimespanChangeHeight := 4, nPowOriginalTargetTimespan := 2 }

/-- A well-formed chain: every parent step lowers the height by exactly one and the last
entry, which has no parent, is at height 0. -/
def wellFormed : Chain → Bool
  | [] => true
  | [genesis] => decide (genesis.nHeight = 0)
  | pindex :: prev :: rest =>
    decide (pindex.nHeight = prev.nHeight + 1) && wellFormed (prev :: rest)

/-- `demoParams` with minimum-difficulty blocks allowed. -/
def minDifficultyParams : Params := { demoParams with fPowAllowMinDifficultyBlocks := true }

/-- The legacy retarget as a formula over unbounded integers: with `s = 1` when the bit length
of the old target exceeds that of the floor less one and `s = 0` otherwise, the encoding of
`min(powLimit, ((old >> s) * a / T) << s)`. -/
def specRetarget (old powLimit a T : Nat) : Nat :=
  let s := if (bits old : Int) > (bits powLimit : Int) - 1 then 1 else 0
  GetCompact (min powLimit ((((old >>> s) * a) / T) <<< s))

/-- `demoParams` with a 255-bit floor and a legacy target timespan of one second. -/
def wideFloorParams : Params :=
  { demoParams with
    powLimit := 2 ^ 255 - 1
    nPowTargetTimespan := 1
    nPowOriginalTargetTimespan := 1 }

/-! # Theorems -/

/-! ## Proof-of-work check -/

/-- C2: `CheckProofOfWork` returns true exactly when decoding `nBits` reports neither negative
nor overflow, the decoded target is non-zero and at most `powLimit`, and the hash as a 256-bit
number is at most the decoded target; otherwise it returns false. -/
theorem CheckProofOfWork_iff (hash nBits : Nat) (params : Params) :
    CheckProofOfWork hash nBits params = true ↔
      ((SetCompact nBits).fNegative = false ∧ (SetCompact nBits).fOverflow = false ∧
        (SetCompact nBits).target ≠ 0 ∧
        (SetCompact nBits).target ≤ UintToArith256 params.powLimit ∧
        UintToArith256 hash ≤ (SetCompact nBits).target) := by
  unfold CheckProofOfWork
  simp only []
  by_cases h1 : (SetCompact nBits).fNegative = true
  · simp [h1]
  by_cases h2 : (SetCompact nBits).fOverflow = true
  · simp [h2]
  by_cases h3 : (SetCompact nBits).target = 0
  · simp [h3]
  by_cases h4 : (SetCompact nBits).target > UintToArith256 params.powLimit
  · simp [h4]
  by_cases h5 : UintToArith256 hash > (SetCompact nBits).target
  · simp [h1, h2, h3, h4, h5]
  · simp [h1, h2, h3, h4, h5]
    omega

/-! ## Dispatcher -/

/-- C8: for an existing tip, `GetNextWorkRequired` returns the result of the legacy branch when
`tip.nHeight + 1 < MultiAlgoForkHeight` and otherwise exactly what
`GetNextMultiAlgoWorkRequired` returns on the same arguments. -/
theorem GetNextWorkRequired_routing (u : Unbound) (tip : CBlockIndex) (pprev : Chain)
    (pblock : CBlockHeader) (params : Params) :
    (tip.nHeight + 1 < params.MultiAlgoForkHeight →
        GetNextWorkRequired u (tip :: pprev) pblock params =
          GetNextWorkRequiredLegacy (tip :: pprev) pblock params) ∧
      (¬ tip.nHeight + 1 < params.MultiAlgoForkHeight →
        GetNextWorkRequired u (tip :: pprev) pblock params =
          GetNextMultiAlgoWorkRequired u (tip :: pprev) pblock params) := by
  constructor
  · intro hlegacy
    simp only [GetNextWorkRequired, if_pos hlegacy]
  · intro hmulti
    simp only [GetNextWorkRequired, if_neg hmulti]

/-- Witness for C8: under `demoParams` (fork height 100) a tip at height 3 is routed to the
legacy branch and a tip at height 99 to `GetNextMultiAlgoWorkRequired`. -/
theorem GetNextWorkRequired_routing_witness :
    GetNextWorkRequired demoUnbound [demoBlock 3 3, demoBlock 2 2] (demoHeader 4) demoParams =
        GetNextWorkRequiredLegacy [demoBlock 3 3, demoBlock 2 2] (demoHeader 4) demoParams ∧
      GetNextWorkRequired demoUnbound [demoBlock 99 99, demoBlock 98 98] (demoHeader 100)
          demoParams =
        GetNextMultiAlgoWorkRequired demoUnbound [demoBlock 99 99, demoBlock 98 98]
          (demoHeader 100) demoParams :=
  ⟨(GetNextWorkRequired_routing demoUnbound (demoBlock 3 3) [demoBlock 2 2] (demoHeader 4)
      demoParams).1 (by decide),
    (GetNextWorkRequired_routing demoUnbound (demoBlock 99 99) [demoBlock 98 98]
      (demoHeader 100) demoParams).2 (by decide)⟩

/-! ## Lane lookup -/

/-- C9: `GetLastBlockIndexForAlgo` returns either nothing or a node that is `start` or one of
its ancestors and whose algorithm is the one asked for. -/
theorem GetLastBlockIndexForAlgo_algo (start : Chain) (params : Params) (algo : Int) :
    GetLastBlockIndexForAlgo start params algo = [] ∨
      ∃ node rest, GetLastBlockIndexForAlgo start params algo = node :: rest ∧
        (node :: rest) <:+ start ∧ node.nAlgo = algo := by
  induction start with
  | nil => left; rfl
  | cons pindex pprev ih =>
    have hstep : ∀ {res : Chain}, (res = [] ∨ ∃ node rest, res = node :: rest ∧
        (node :: rest) <:+ pprev ∧ node.nAlgo = algo) →
        (res = [] ∨ ∃ node rest, res = node :: rest ∧
        (node :: rest) <:+ (pindex :: pprev) ∧ node.nAlgo = algo) := by
      intro res h
      rcases h with h | ⟨node, rest, h1, h2, h3⟩
      · exact Or.inl h
      · exact Or.inr ⟨node, rest, h1, h2.trans (List.suffix_cons _ _), h3⟩
    unfold GetLastBlockIndexForAlgo
    split_ifs with h1 h2
    · exact hstep ih
    · exact hstep ih
    · right
      exact ⟨pindex, pprev, rfl, List.suffix_refl _, by simpa using h1⟩

/-! ## Off-boundary stability -/

/-- C7: on the legacy side of the multi-algorithm fork, when the boundary test
`(nHeight + 1) % DifficultyAdjustmentInterval(params, nHeight + 1) != 0` succeeds and
minimum-difficulty blocks are disabled, `GetNextWorkRequired` returns the tip's bits, whatever
the candidate header and the ancestors. -/
theorem GetNextWorkRequired_off_boundary (u : Unbound) (tip : CBlockIndex) (pprev : Chain)
    (pblock : CBlockHeader) (params : Params) (interval r : Int)
    (hfork : tip.nHeight + 1 < params.MultiAlgoForkHeight)
    (hinterval : DifficultyAdjustmentInterval params (tip.nHeight + 1) = .ok interval)
    (hmod : cmod (tip.nHeight + 1) interval = .ok r) (hr : r ≠ 0)
    (hmin : params.fPowAllowMinDifficultyBlocks = false) :
    GetNextWorkRequired u (tip :: pprev) pblock params = .ok tip.nBits := by
  simp [GetNextWorkRequired, GetNextWorkRequiredLegacy, hfork, hinterval, hmod, hr, hmin, bind,
    Except.bind]

/-- Witness for C7: height 1 under `demoParams` (interval 4) is off the boundary. -/
theorem GetNextWorkRequired_off_boundary_witness :
    GetNextWorkRequired demoUnbound [demoBlock 1 1, demoBlock 0 0] (demoHeader 2) demoParams =
      .ok 0x1e0fffff :=
  GetNextWorkRequired_off_boundary demoUnbound (demoBlock 1 1) [demoBlock 0 0] (demoHeader 2)
    demoParams 4 2 (by decide) (by decide) (by decide) (by decide) (by decide)

/-! ## Insufficient history -/

/-- C10: on a multi-algorithm retarget boundary, when the walk of
`nMultiAlgoNum * MultiAlgoAveragingInterval(params, nHeight)` parent links runs out of
ancestors, or the lane lookup finds no block of the candidate's algorithm,
`GetNextMultiAlgoWorkRequired` returns the compact encoding of `powLimit` (it does not fail). -/
theorem GetNextMultiAlgoWorkRequired_insufficient_history (u : Unbound) (tip : CBlockIndex)
    (pprev : Chain) (pblock : CBlockHeader) (params : Params) (interval : Int)
    (hinterval : DifficultyAdjustmentInterval params (tip.nHeight + 1) = .ok interval)
    (hmod : cmod (tip.nHeight + 1) interval = .ok 0)
    (hshort :
      goBack (params.nMultiAlgoNum * MultiAlgoAveragingInterval params tip.nHeight).toNat
          (tip :: pprev) = [] ∨
        GetLastBlockIndexForAlgo (tip :: pprev) params pblock.nAlgo = []) :
    GetNextMultiAlgoWorkRequired u (tip :: pprev) pblock params =
      .ok (GetCompact (UintToArith256 params.powLimit)) := by
  unfold GetNextMultiAlgoWorkRequired GetNextMultiAlgoWorkRequiredSt
  simp only [hinterval, hmod, bind, Except.bind]
  simp only [ne_eq, not_true_eq_false, if_false]
  rcases hshort with h | h
  · rw [h]
    cases hp : GetLastBlockIndexForAlgo (tip :: pprev) params pblock.nAlgo <;> rfl
  · rw [h]
    rfl

/-- Witness for C10: a single block at height 3 under `demoParams` is on the boundary and has
no ancestor to walk to. -/
theorem GetNextMultiAlgoWorkRequired_insufficient_history_witness :
    GetNextMultiAlgoWorkRequired demoUnbound [demoBlock 3 3] (demoHeader 4) demoParams =
      .ok 0x1e0fffff :=
  GetNextMultiAlgoWorkRequired_insufficient_history demoUnbound (demoBlock 3 3) [] (demoHeader 4)
    demoParams 4 (by decide) (by decide) (Or.inl (by decide))

/-! ## Legacy lookback -/

/-- The ancestor walk is `List.drop`: after `n` links the pointer is the `n`-th ancestor, or
null when there are fewer than `n + 1` entries. -/
theorem goBack_eq_drop (n : Nat) (c : Chain) : goBack n c = c.drop n := by
  induction n generalizing c with
  | zero => rfl
  | succ n ih =>
    cases c with
    | nil => rfl
    | cons b rest => simpa [goBack] using ih rest

/-- C3 (counterexample): at the first retarget of `demoParams` (tip height 3, interval 4) the
code walks back `interval - 1 = 3` links and lands on genesis, where the specification's
wording gives `interval = 4`. -/
theorem lookback_depth_counterexample :
    DifficultyAdjustmentInterval demoParams (3 + 1) = .ok 4 ∧
      cmod (3 + 1) 4 = .ok 0 ∧
      blocksToGoBack demoParams 3 = .ok 3 ∧
      blocksToGoBack demoParams 3 ≠ .ok (specLookbackDepth 4 3) ∧
      goBack 3 [demoBlock 3 3, demoBlock 2 2, demoBlock 1 1, demoBlock 0 0] = [demoBlock 0 0] := by
  decide

/-- C3 (amended): on a legacy retarget boundary the lookback is `interval - 1` parent links
when `tip.nHeight + 1 == interval` (the first retarget) and `interval` links otherwise; the
window's first node is the ancestor that many links above the tip, and the call fails the
assertion when there is none. -/
theorem lookback_depth (tip : CBlockIndex) (pprev : Chain) (pblock : CBlockHeader)
    (params : Params) (interval : Int)
    (hinterval : DifficultyAdjustmentInterval params (tip.nHeight + 1) = .ok interval)
    (hmod : cmod (tip.nHeight + 1) interval = .ok 0) :
    blocksToGoBack params tip.nHeight =
        .ok (if tip.nHeight + 1 = interval then interval - 1 else interval) ∧
      GetNextWorkRequiredLegacy (tip :: pprev) pblock params =
        match (tip :: pprev).drop
            (if tip.nHeight + 1 = interval then interval - 1 else interval).toNat with
        | [] => .error .assertion
        | pindexFirst :: _ => CalculateNextWorkRequired tip pindexFirst.nTime params := by
  have hb : blocksToGoBack params tip.nHeight =
      .ok (if tip.nHeight + 1 = interval then interval - 1 else interval) := by
    unfold blocksToGoBack
    simp only [hinterval, bind, Except.bind]
    by_cases h : tip.nHeight + 1 = interval <;> simp [h]
  refine ⟨hb, ?_⟩
  unfold GetNextWorkRequiredLegacy
  simp only [hinterval, hmod, hb, bind, Except.bind, goBack_eq_drop, ne_eq, not_true_eq_false,
    if_false]
  cases List.drop (if tip.nHeight + 1 = interval then interval - 1 else interval).toNat
    (tip :: pprev) <;> rfl

/-- Witness for C3 (amended): the first retarget of `demoParams` on a four-block chain. -/
theorem lookback_depth_witness :
    blocksToGoBack demoParams 3 = .ok 3 ∧
      GetNextWorkRequiredLegacy [demoBlock 3 3, demoBlock 2 2, demoBlock 1 1, demoBlock 0 0]
          (demoHeader 4) demoParams =
        CalculateNextWorkRequired (demoBlock 3 3) (demoBlock 0 0).nTime demoParams :=
  lookback_depth (demoBlock 3 3) [demoBlock 2 2, demoBlock 1 1, demoBlock 0 0] (demoHeader 4)
    demoParams 4 (by decide) (by decide)

/-! ## Legacy clamp -/

/-- Limiting an already limited timespan changes nothing. -/
theorem limitAdjustmentStep_idem (T t : Int) :
    limitAdjustmentStep T (limitAdjustmentStep T t) = limitAdjustmentStep T t := by
  unfold limitAdjustmentStep
  simp only []
  generalize T.tdiv 4 = q
  split_ifs <;> omega

/-- For a non-negative target timespan the limited timespan lies in `[T / 4, T * 4]`. -/
theorem limitAdjustmentStep_bounds (T t : Int) (hT : 0 ≤ T) :
    T.tdiv 4 ≤ limitAdjustmentStep T t ∧ limitAdjustmentStep T t ≤ T * 4 := by
  have h4 : T.tdiv 4 ≤ T * 4 := by
    rw [Int.tdiv_eq_ediv hT (by norm_num)]
    omega
  unfold limitAdjustmentStep
  simp only []
  generalize T.tdiv 4 = q at h4 ⊢
  split_ifs <;> omega

/-- For a non-negative target timespan the two `if`s of the code compute the clamp to
`[T / 4, T * 4]`. -/
theorem limitAdjustmentStep_eq_clampTo (T t : Int) (hT : 0 ≤ T) :
    limitAdjustmentStep T t = clampTo (T.tdiv 4) (T * 4) t := by
  have h4 : T.tdiv 4 ≤ T * 4 := by
    rw [Int.tdiv_eq_ediv hT (by norm_num)]
    omega
  unfold limitAdjustmentStep clampTo
  simp only [max_def, min_def]
  generalize T.tdiv 4 = q at h4 ⊢
  split_ifs <;> omega

/-- C4: with retargeting enabled, for every tip and first-block time (the selected target
timespan `T` being a duration, `0 ≤ T`, with `T * 4` inside `int64_t`), the timespan
`CalculateNextWorkRequired` multiplies the old target by is the clamp of
`tip.nTime - nFirstBlockTime` to `[T / 4, T * 4]`, it lies in that interval, and the result
equals the one obtained when `tip.nTime - nFirstBlockTime` is replaced by its clamp. -/
theorem legacy_clamp (tip : CBlockIndex) (nFirstBlockTime : Int) (params : Params)
    (hretarget : params.fPowNoRetargeting = false)
    (hT : 0 ≤ legacyTargetTimespan tip params)
    (_hfit : legacyTargetTimespan tip params * 4 < 2 ^ 63) :
    legacyActualTimespan tip nFirstBlockTime params =
        clampTo ((legacyTargetTimespan tip params).tdiv 4) (legacyTargetTimespan tip params * 4)
          (tip.nTime - nFirstBlockTime) ∧
      (legacyTargetTimespan tip params).tdiv 4 ≤
        legacyActualTimespan tip nFirstBlockTime params ∧
      legacyActualTimespan tip nFirstBlockTime params ≤ legacyTargetTimespan tip params * 4 ∧
      CalculateNextWorkRequired tip nFirstBlockTime params =
        retarget tip.nBits
          (clampTo ((legacyTargetTimespan tip params).tdiv 4)
            (legacyTargetTimespan tip params * 4) (tip.nTime - nFirstBlockTime))
          (legacyTargetTimespan tip params) params.powLimit ∧
      CalculateNextWorkRequired tip
          (tip.nTime - clampTo ((legacyTargetTimespan tip params).tdiv 4)
            (legacyTargetTimespan tip params * 4) (tip.nTime - nFirstBlockTime)) params =
        CalculateNextWorkRequired tip nFirstBlockTime params := by
  obtain ⟨h1, h2⟩ := limitAdjustmentStep_bounds (legacyTargetTimespan tip params)
    (tip.nTime - nFirstBlockTime) hT
  have hclamp : legacyActualTimespan tip nFirstBlockTime params =
      clampTo ((legacyTargetTimespan tip params).tdiv 4) (legacyTargetTimespan tip params * 4)
        (tip.nTime - nFirstBlockTime) :=
    limitAdjustmentStep_eq_clampTo _ _ hT
  refine ⟨hclamp, h1, h2, ?_, ?_⟩
  · rw [← hclamp]
    simp [CalculateNextWorkRequired, hretarget]
  · rw [← hclamp]
    have hidem : legacyActualTimespan tip
        (tip.nTime - legacyActualTimespan tip nFirstBlockTime params) params =
        legacyActualTimespan tip nFirstBlockTime params := by
      unfold legacyActualTimespan
      rw [sub_sub_cancel, limitAdjustmentStep_idem]
    simp [CalculateNextWorkRequired, hretarget, hidem]

/-- Witness for C4: `demoParams` (`T = 4`, interval `[1, 16]`) and a tip whose time equals
that of the first block: the timespan `0` is raised to `1`, and the call gives what it gives
for a first block one second before the tip. -/
theorem legacy_clamp_witness :
    legacyActualTimespan (demoBlock 3 100) 100 demoParams = 1 ∧
      clampTo 1 16 0 = 1 ∧
      CalculateNextWorkRequired (demoBlock 3 100) (100 - 1) demoParams =
        CalculateNextWorkRequired (demoBlock 3 100) 100 demoParams :=
  ⟨(legacy_clamp (demoBlock 3 100) 100 demoParams (by decide) (by decide) (by decide)).1,
    by decide,
    (legacy_clamp (demoBlock 3 100) 100 demoParams (by decide) (by decide) (by decide)).2.2.2.2⟩

/-! ## Legacy scenario: the first retarget on an evenly spaced chain -/

/-- On a chain spaced `spacing` apart, the walk of as many links as the tip has ancestors ends
on the last ancestor, whose time is that many spacings before the tip's. -/
theorem goBack_spaced (spacing : Int) (pprev : Chain) (tip : CBlockIndex)
    (hspaced : spacedBy spacing (tip :: pprev) = true) :
    ∃ genesis, goBack pprev.length (tip :: pprev) = [genesis] ∧
      genesis.nTime = tip.nTime - (pprev.length : Int) * spacing := by
  induction pprev generalizing tip with
  | nil => exact ⟨tip, rfl, by simp⟩
  | cons prev rest ih =>
    simp only [spacedBy, Bool.and_eq_true, decide_eq_true_eq] at hspaced
    obtain ⟨hstep, hrest⟩ := hspaced
    obtain ⟨genesis, hwalk, htime⟩ := ih prev hrest
    refine ⟨genesis, by simpa [goBack] using hwalk, ?_⟩
    rw [htime, hstep, List.length_cons]
    push_cast
    ring

/-- C6 (counterexample): four blocks at the compact floor of `demoParams` (interval 4), spaced
exactly `nPowTargetSpacing = 1` apart, retargeting enabled: the retarget at height 4 returns
`0x1e0bffff`, three quarters of the floor `0x1e0fffff`, since the window measured from
genesis to the tip spans three spacings. -/
theorem first_retarget_counterexample :
    GetCompact (UintToArith256 demoParams.powLimit) = 0x1e0fffff ∧
      DifficultyAdjustmentInterval demoParams (3 + 1) = .ok 4 ∧
      demoParams.fPowNoRetargeting = false ∧
      GetNextWorkRequired demoUnbound
          [demoBlock 3 3, demoBlock 2 2, demoBlock 1 1, demoBlock 0 0] (demoHeader 4)
          demoParams = .ok 0x1e0bffff ∧
      GetNextWorkRequired demoUnbound
          [demoBlock 3 3, demoBlock 2 2, demoBlock 1 1, demoBlock 0 0] (demoHeader 4)
          demoParams ≠ .ok (GetCompact (UintToArith256 demoParams.powLimit)) := by
  decide

/-- C6 (amended): for a chain of exactly `interval` blocks at the compact floor whose
timestamps are `nPowTargetSpacing` apart, with retargeting enabled, the legacy retarget at the
boundary `tip.nHeight + 1 == interval` measures `(interval - 1) * nPowTargetSpacing` from
genesis to the tip and returns the floor retargeted by that timespan (limited to
`[T / 4, T * 4]`) over the target timespan `T`. -/
theorem first_retarget_spaced (tip : CBlockIndex) (pprev : Chain) (pblock : CBlockHeader)
    (params : Params) (interval : Int)
    (hinterval : DifficultyAdjustmentInterval params (tip.nHeight + 1) = .ok interval)
    (hheight : tip.nHeight + 1 = interval)
    (hlength : ((tip :: pprev).length : Int) = interval)
    (hspaced : spacedBy params.nPowTargetSpacing (tip :: pprev) = true)
    (hbits : ∀ b ∈ tip :: pprev, b.nBits = GetCompact (UintToArith256 params.powLimit))
    (hretarget : params.fPowNoRetargeting = false) :
    GetNextWorkRequiredLegacy (tip :: pprev) pblock params =
      retarget (GetCompact (UintToArith256 params.powLimit))
        (limitAdjustmentStep (legacyTargetTimespan tip params)
          ((interval - 1) * params.nPowTargetSpacing))
        (legacyTargetTimespan tip params) params.powLimit := by
  subst hheight
  have hlen : (pprev.length : Int) = tip.nHeight + 1 - 1 := by
    rw [List.length_cons] at hlength
    push_cast at hlength
    omega
  have hne : tip.nHeight + 1 ≠ 0 := by omega
  have hmod : cmod (tip.nHeight + 1) (tip.nHeight + 1) = .ok 0 := by
    simp [cmod, hne]
  have hdepth : (tip.nHeight + 1 - 1).toNat = pprev.length := by omega
  obtain ⟨genesis, hwalk, htime⟩ := goBack_spaced params.nPowTargetSpacing pprev tip hspaced
  have htip : tip.nBits = GetCompact (UintToArith256 params.powLimit) :=
    hbits tip (List.mem_cons_self _ _)
  unfold GetNextWorkRequiredLegacy blocksToGoBack
  simp only [hinterval, hmod, bind, Except.bind, ne_eq, not_true_eq_false, if_false, hdepth,
    hwalk]
  simp [CalculateNextWorkRequired, hretarget, legacyActualTimespan, htime, hlen, htip]

/-- Witness for C6 (amended): the four-block chain of `demoParams`; the limited timespan is
`3` against `T = 4`. -/
theorem first_retarget_spaced_witness :
    GetNextWorkRequiredLegacy [demoBlock 3 3, demoBlock 2 2, demoBlock 1 1, demoBlock 0 0]
        (demoHeader 4) demoParams =
      retarget 0x1e0fffff 3 4 demoParams.powLimit :=
  first_retarget_spaced (demoBlock 3 3) [demoBlock 2 2, demoBlock 1 1, demoBlock 0 0]
    (demoHeader 4) demoParams 4 (by decide) (by decide) (by decide) (by decide) (by decide)
    (by decide)

/-! ## Multi-algorithm timespan -/

/-- C5 (the code at the failing input): with the multi-algorithm rules active, a tip at height
3 (a boundary for interval 4) whose median-time-past is `1000000` seconds after that of its
parent, the call reaches the end of `GetNextMultiAlgoWorkRequired` with a damped
`nActualTimespan` of `250135`, while `MultiAlgoMaxActualTimeSpan` is `208`: the timespan is
never limited to `[MultiAlgoMinActualTimeSpan, MultiAlgoMaxActualTimeSpan]`. -/
theorem multiAlgo_timespan_unclamped :
    GetNextMultiAlgoWorkRequiredSt demoUnbound
        [demoBlockMedian 3 3 1000000, demoBlockMedian 2 2 0] (demoHeader 4) multiAlgoDemoParams =
      .ok (GetCompact (demoUnbound.bnNew % 2 ^ 256),
        (multiAlgoTimespans demoUnbound (demoBlockMedian 3 3 1000000) (demoBlockMedian 2 2 0)
          multiAlgoDemoParams).params) ∧
      (multiAlgoTimespans demoUnbound (demoBlockMedian 3 3 1000000) (demoBlockMedian 2 2 0)
        multiAlgoDemoParams).nActualTimespan = 250135 ∧
      MultiAlgoMinActualTimeSpan multiAlgoDemoParams 3 = 165 ∧
      MultiAlgoMaxActualTimeSpan multiAlgoDemoParams 3 = 208 ∧
      ¬ (MultiAlgoMinActualTimeSpan multiAlgoDemoParams 3 ≤
            (multiAlgoTimespans demoUnbound (demoBlockMedian 3 3 1000000)
              (demoBlockMedian 2 2 0) multiAlgoDemoParams).nActualTimespan ∧
          (multiAlgoTimespans demoUnbound (demoBlockMedian 3 3 1000000)
              (demoBlockMedian 2 2 0) multiAlgoDemoParams).nActualTimespan ≤
            MultiAlgoMaxActualTimeSpan multiAlgoDemoParams 3) := by
  refine ⟨by rfl, by decide, by decide, by decide, by decide⟩

/-! ## The compact codec never rounds up -/

/-- The scan returns a bit length that covers the number and does not exceed the scan width. -/
theorem bitsFrom_spec (k x : Nat) (h : x < 2 ^ k) : x < 2 ^ bitsFrom k x ∧ bitsFrom k x ≤ k := by
  induction k with
  | zero => simpa [bitsFrom] using h
  | succ k ih =>
    unfold bitsFrom
    split_ifs with hk
    · exact ⟨h, le_refl _⟩
    · obtain ⟨h1, h2⟩ := ih (by omega)
      exact ⟨h1, by omega⟩

/-- Decoding a compact value assembled from a mantissa word `m` and a size `n` gives at most
`m` shifted by `n - 3` bytes. -/
theorem SetCompact_assembled_le (m n : Nat) (hm : m < 2 ^ 24) (hn : n ≤ 33) :
    (SetCompact ((m ||| (n <<< 24)) % 2 ^ 32)).target ≤
      if n ≤ 3 then m >>> (8 * (3 - n)) else m <<< (8 * (n - 3)) := by
  have hor : m ||| (n <<< 24) = 2 ^ 24 * n + m := by
    rw [Nat.lor_comm, Nat.shiftLeft_eq, Nat.mul_comm, ← Nat.mul_add_lt_is_or hm]
  have hlt : 2 ^ 24 * n + m < 2 ^ 32 := by omega
  rw [hor, Nat.mod_eq_of_lt hlt]
  have hsize : (2 ^ 24 * n + m) >>> 24 = n := by
    rw [Nat.shiftRight_eq_div_pow]
    omega
  have hword : (2 ^ 24 * n + m) &&& 0x007fffff = m % 2 ^ 23 := by
    have h23 : (0x007fffff : Nat) = 2 ^ 23 - 1 := by norm_num
    rw [h23, Nat.and_pow_two_sub_one_eq_mod]
    omega
  unfold SetCompact
  simp only [hsize, hword]
  split_ifs with h3
  · rw [Nat.shiftRight_eq_div_pow, Nat.shiftRight_eq_div_pow]
    exact Nat.div_le_div_right (Nat.mod_le _ _)
  · refine le_trans (Nat.mod_le _ _) ?_
    rw [Nat.shiftLeft_eq, Nat.shiftLeft_eq]
    exact Nat.mul_le_mul_right _ (Nat.mod_le _ _)

/-- Encoding a 256-bit number and decoding it again never gives a larger number: the compact
form drops low-order bytes only. -/
theorem SetCompact_GetCompact_le (x : Nat) (hx : x < 2 ^ 256) :
    (SetCompact (GetCompact x)).target ≤ x := by
  obtain ⟨hb1, hb2⟩ := bitsFrom_spec 256 x hx
  have hn : (bits x + 7) / 8 ≤ 32 := by
    unfold bits
    omega
  have hxn : x < 2 ^ (8 * ((bits x + 7) / 8)) :=
    lt_of_lt_of_le hb1 (Nat.pow_le_pow_right (by norm_num) (by unfold bits; omega))
  unfold GetCompact
  simp only []
  generalize (bits x + 7) / 8 = n at hn hxn ⊢
  by_cases h3 : n ≤ 3
  · simp only [h3, if_true]
    have hc0 : ((x % 2 ^ 64) <<< (8 * (3 - n))) % 2 ^ 32 = x * 2 ^ (8 * (3 - n)) ∧
        x * 2 ^ (8 * (3 - n)) < 2 ^ 24 := by
      interval_cases n <;> simp [Nat.shiftLeft_eq] at hxn ⊢ <;> omega
    rw [hc0.1]
    generalize decide (x * 2 ^ (8 * (3 - n)) &&& 0x00800000 ≠ 0) = fSign
    cases fSign
    · simp only [Bool.false_eq_true, if_false]
      refine le_trans (SetCompact_assembled_le _ n hc0.2 (by omega)) ?_
      simp only [h3, if_true, Nat.shiftRight_eq_div_pow]
      rw [Nat.mul_div_cancel _ (by positivity)]
    · simp only [if_true]
      refine le_trans (SetCompact_assembled_le _ (n + 1) ?_ (by omega)) ?_
      · rw [Nat.shiftRight_eq_div_pow]
        exact lt_of_le_of_lt (Nat.div_le_self _ _) hc0.2
      · interval_cases n <;> simp [Nat.shiftRight_eq_div_pow, Nat.shiftLeft_eq] <;> omega
  · simp only [h3, if_false]
    have hsplit : 8 * n = 8 * (n - 3) + 24 := by omega
    have hc0lt : x / 2 ^ (8 * (n - 3)) < 2 ^ 24 := by
      rw [Nat.div_lt_iff_lt_mul (by positivity), ← pow_add, Nat.add_comm, ← hsplit]
      exact hxn
    have hc0 : ((x >>> (8 * (n - 3))) % 2 ^ 64) % 2 ^ 32 = x / 2 ^ (8 * (n - 3)) := by
      have h64 : x / 2 ^ (8 * (n - 3)) < 2 ^ 64 := by omega
      have h32 : x / 2 ^ (8 * (n - 3)) < 2 ^ 32 := by omega
      rw [Nat.shiftRight_eq_div_pow, Nat.mod_eq_of_lt h64, Nat.mod_eq_of_lt h32]
    rw [hc0]
    generalize decide (x / 2 ^ (8 * (n - 3)) &&& 0x00800000 ≠ 0) = fSign
    cases fSign
    · simp only [Bool.false_eq_true, if_false]
      refine le_trans (SetCompact_assembled_le _ n hc0lt (by omega)) ?_
      simp only [h3, if_false, Nat.shiftLeft_eq]
      exact Nat.div_mul_le_self _ _
    · simp only [if_true]
      refine le_trans (SetCompact_assembled_le _ (n + 1) ?_ (by omega)) ?_
      · rw [Nat.shiftRight_eq_div_pow]
        exact lt_of_le_of_lt (Nat.div_le_self _ _) hc0lt
      · have h4 : ¬ n + 1 ≤ 3 := by omega
        have h8 : 8 * (n + 1 - 3) = 8 * (n - 3) + 8 := by omega
        simp only [h4, if_false, Nat.shiftLeft_eq, Nat.shiftRight_eq_div_pow]
        rw [Nat.div_div_eq_div_mul, ← pow_add, h8]
        exact Nat.div_mul_le_self _ _

/-! ## Floor invariant -/

/-- The compact floor decodes to at most `powLimit`. -/
theorem SetCompact_floor_le (params : Params) :
    (SetCompact (GetCompact (UintToArith256 params.powLimit))).target ≤
      UintToArith256 params.powLimit :=
  SetCompact_GetCompact_le _ (Nat.mod_lt _ (by positivity))

/-- Whatever `retarget` returns decodes to at most `powLimit`. -/
theorem retarget_le (nBits : Nat) (nActualTimespan nPowTargetTimespan : Int) (powLimit r : Nat)
    (h : retarget nBits nActualTimespan nPowTargetTimespan powLimit = .ok r) :
    (SetCompact r).target ≤ UintToArith256 powLimit := by
  have hlim : UintToArith256 powLimit < 2 ^ 256 := Nat.mod_lt _ (by positivity)
  unfold retarget at h
  simp only [bind, Except.bind] at h
  split at h
  · simp at h
  · simp only [Except.ok.injEq] at h
    subst h
    split_ifs
    all_goals
      first
        | exact SetCompact_GetCompact_le _ hlim
        | exact le_trans (SetCompact_GetCompact_le _ (by omega)) (by omega)

/-- The minimum-difficulty walk returns the bits of the tip or of one of its ancestors. -/
theorem lastNonMinDifficultyBits_mem (params : Params) (nProofOfWorkLimit : Nat) (chain : Chain)
    (r : Nat) (h : lastNonMinDifficultyBits params nProofOfWorkLimit chain = .ok r) :
    ∃ b ∈ chain, b.nBits = r := by
  induction chain with
  | nil => simp [lastNonMinDifficultyBits] at h
  | cons pindex pprev ih =>
    cases pprev with
    | nil =>
      simp only [lastNonMinDifficultyBits, Except.ok.injEq] at h
      exact ⟨pindex, List.mem_cons_self _ _, h⟩
    | cons prev rest =>
      unfold lastNonMinDifficultyBits at h
      simp only [bind, Except.bind] at h
      split at h
      · simp at h
      · split at h
        · simp at h
        · split_ifs at h with hc
          · obtain ⟨b, hb, hbits⟩ := ih h
            exact ⟨b, List.mem_cons_of_mem _ hb, hbits⟩
          · simp only [Except.ok.injEq] at h
            exact ⟨pindex, List.mem_cons_self _ _, h⟩

/-- Whatever `CalculateNextWorkRequired` returns for a tip whose own bits decode to at most
`powLimit` decodes to at most `powLimit`. -/
theorem CalculateNextWorkRequired_le (tip : CBlockIndex) (nFirstBlockTime : Int)
    (params : Params) (r : Nat)
    (htip : (SetCompact tip.nBits).target ≤ UintToArith256 params.powLimit)
    (h : CalculateNextWorkRequired tip nFirstBlockTime params = .ok r) :
    (SetCompact r).target ≤ UintToArith256 params.powLimit := by
  unfold CalculateNextWorkRequired at h
  split_ifs at h
  · simp only [Except.ok.injEq] at h
    exact h ▸ htip
  · exact retarget_le _ _ _ _ _ h

/-- Whatever the legacy branch returns on a chain whose bits all decode to at most `powLimit`
decodes to at most `powLimit`. -/
theorem GetNextWorkRequiredLegacy_le (tip : CBlockIndex) (pprev : Chain) (pblock : CBlockHeader)
    (params : Params) (r : Nat)
    (hvalid : ∀ b ∈ tip :: pprev, (SetCompact b.nBits).target ≤ UintToArith256 params.powLimit)
    (h : GetNextWorkRequiredLegacy (tip :: pprev) pblock params = .ok r) :
    (SetCompact r).target ≤ UintToArith256 params.powLimit := by
  have htip := hvalid tip (List.mem_cons_self _ _)
  unfold GetNextWorkRequiredLegacy at h
  simp only [bind, Except.bind] at h
  split at h
  · simp at h
  · split at h
    · simp at h
    · split_ifs at h with hr hmin htime
      · simp only [Except.ok.injEq] at h
        exact h ▸ SetCompact_floor_le params
      · obtain ⟨b, hb, hbits⟩ := lastNonMinDifficultyBits_mem _ _ _ _ h
        exact hbits ▸ hvalid b hb
      · simp only [Except.ok.injEq] at h
        exact h ▸ htip
      · split at h
        · simp at h
        · split at h
          · simp at h
          · exact CalculateNextWorkRequired_le _ _ _ _ htip h

/-- C1 (counterexample): off the boundary the legacy path hands back the tip's bits; for a tip
with bits `0x1f0fffff` under `demoParams` the returned value decodes above `powLimit`. -/
theorem floor_invariant_counterexample :
    GetNextWorkRequired demoUnbound [demoBlockBits 1 1 0x1f0fffff, demoBlock 0 0] (demoHeader 2)
        demoParams = .ok 0x1f0fffff ∧
      ¬ (SetCompact 0x1f0fffff).target ≤ UintToArith256 demoParams.powLimit := by
  decide

/-- C1 (amended): on a chain whose entries all carry bits decoding to at most `powLimit`,
every value returned by `CalculateNextWorkRequired`, by `GetNextWorkRequired` on the legacy
path, and by `GetNextMultiAlgoWorkRequired` off the boundary or with insufficient history
decodes to a target of at most `powLimit`. -/
theorem floor_invariant (u : Unbound) (tip : CBlockIndex) (pprev : Chain)
    (pblock : CBlockHeader) (params : Params) (nFirstBlockTime : Int) (r : Nat)
    (hvalid : ∀ b ∈ tip :: pprev, (SetCompact b.nBits).target ≤ UintToArith256 params.powLimit) :
    (CalculateNextWorkRequired tip nFirstBlockTime params = .ok r →
        (SetCompact r).target ≤ UintToArith256 params.powLimit) ∧
      (tip.nHeight + 1 < params.MultiAlgoForkHeight →
        GetNextWorkRequired u (tip :: pprev) pblock params = .ok r →
        (SetCompact r).target ≤ UintToArith256 params.powLimit) ∧
      (((∃ interval m, DifficultyAdjustmentInterval params (tip.nHeight + 1) = .ok interval ∧
            cmod (tip.nHeight + 1) interval = .ok m ∧ m ≠ 0) ∨
          goBack (params.nMultiAlgoNum * MultiAlgoAveragingInterval params tip.nHeight).toNat
            (tip :: pprev) = [] ∨
          GetLastBlockIndexForAlgo (tip :: pprev) params pblock.nAlgo = []) →
        GetNextMultiAlgoWorkRequired u (tip :: pprev) pblock params = .ok r →
        (SetCompact r).target ≤ UintToArith256 params.powLimit) := by
  have htip := hvalid tip (List.mem_cons_self _ _)
  refine ⟨CalculateNextWorkRequired_le _ _ _ _ htip, ?_, ?_⟩
  · intro hfork h
    simp only [GetNextWorkRequired, if_pos hfork] at h
    exact GetNextWorkRequiredLegacy_le _ _ _ _ _ hvalid h
  · intro hpath h
    unfold GetNextMultiAlgoWorkRequired GetNextMultiAlgoWorkRequiredSt at h
    simp only [bind, Except.bind] at h
    rcases hpath with ⟨interval, m, hinterval, hmod, hm⟩ | hshort | hshort
    · simp only [hinterval, hmod, hm, ne_eq, not_false_eq_true, if_true] at h
      split_ifs at h
      · simp only [Except.map, Except.ok.injEq] at h
        exact h ▸ SetCompact_floor_le params
      · simp only [Except.map, Except.ok.injEq] at h
        exact h ▸ htip
    · split at h
      · simp [Except.map] at h
      · split at h
        · simp [Except.map] at h
        · split_ifs at h
          · simp only [Except.map, Except.ok.injEq] at h
            exact h ▸ SetCompact_floor_le params
          · simp only [Except.map, Except.ok.injEq] at h
            exact h ▸ htip
          · rw [hshort] at h
            split at h
            · simp only [Except.map, Except.ok.injEq] at h
              exact h ▸ SetCompact_floor_le params
            · simp only [Except.map, Except.ok.injEq] at h
              exact h ▸ SetCompact_floor_le params
            · simp_all
    · split at h
      · simp [Except.map] at h
      · split at h
        · simp [Except.map] at h
        · split_ifs at h
          · simp only [Except.map, Except.ok.injEq] at h
            exact h ▸ SetCompact_floor_le params
          · simp only [Except.map, Except.ok.injEq] at h
            exact h ▸ htip
          · rw [hshort] at h
            simp only [Except.map, Except.ok.injEq] at h
            exact h ▸ SetCompact_floor_le params

/-- Witness for C1 (amended): the first retarget of `demoParams` on the four-block chain at the
floor returns `0x1e0bffff`, which decodes below `powLimit`. -/
theorem floor_invariant_witness :
    (SetCompact 0x1e0bffff).target ≤ UintToArith256 demoParams.powLimit :=
  (floor_invariant demoUnbound (demoBlock 3 3) [demoBlock 2 2, demoBlock 1 1, demoBlock 0 0]
    (demoHeader 4) demoParams 0 0x1e0bffff (by decide)).2.1 (by decide) (by decide)

/-! ## Parameter resolver -/

/-- C13: for every height, `MultiAlgoMinActualTimeSpan` is
`MultiAlgoAveragingTargetTimespan * (100 - up) / 100` and `MultiAlgoMaxActualTimeSpan` is
`MultiAlgoAveragingTargetTimespan * (100 + down) / 100` with truncating division, where `up`
and `down` are the first-generation percentages below `DifficultyChangeForkHeight` and the
second-generation ones from it on. -/
theorem MultiAlgo_actual_timespan_bounds (params : Params) (nHeight : Int) :
    MultiAlgoMinActualTimeSpan params nHeight =
        (MultiAlgoAveragingTargetTimespan params nHeight *
          (100 - (if nHeight < params.DifficultyChangeForkHeight then params.MultiAlgoMaxAdjustUp
            else params.MultiAlgoMaxAdjustUpV2))).tdiv 100 ∧
      MultiAlgoMaxActualTimeSpan params nHeight =
        (MultiAlgoAveragingTargetTimespan params nHeight *
          (100 + (if nHeight < params.DifficultyChangeForkHeight then
            params.MultiAlgoMaxAdjustDown else params.MultiAlgoMaxAdjustDownV2))).tdiv 100 := by
  constructor
  · simp only [MultiAlgoMinActualTimeSpan, MultiAlgoMaxAdjustUp]
  · simp only [MultiAlgoMaxActualTimeSpan, MultiAlgoMaxAdjustDown]

/-! ## The multi-algorithm boundary path at concrete inputs -/

/-- C11 (the code at the failing input): on the boundary path with sufficient history
`GetNextMultiAlgoWorkRequired` leaves `nMultiAlgoTargetSpacing` at `180`, the value of
`MultiAlgoTimespan`, where it was `0` before the call. -/
theorem params_written_by_retarget :
    multiAlgoDemoParams.nMultiAlgoTargetSpacing = 0 ∧
      (GetNextMultiAlgoWorkRequiredSt demoUnbound [demoBlock 3 3, demoBlock 2 2] (demoHeader 4)
        multiAlgoDemoParams).map (fun r => r.2.nMultiAlgoTargetSpacing) = .ok 180 ∧
      (GetNextMultiAlgoWorkRequiredSt demoUnbound [demoBlock 3 3, demoBlock 2 2] (demoHeader 4)
        multiAlgoDemoParams).map (fun r => decide (r.2 = multiAlgoDemoParams)) = .ok false := by
  refine ⟨by decide, by decide, by decide⟩

/-- C14 (the code at the failing input): with five algorithms, averaging interval 2 and timespan
180, a tip at height 11 is on the boundary with the ten ancestors the lookback needs; the
function ends with `nAveragingTargetTimespan = 2 * 180 = 360`, where
`MultiAlgoAveragingTargetTimespan` is `2 * 5 * 180 = 1800`. -/
theorem averaging_target_timespan_disagrees :
    goBack (fiveAlgoParams.nMultiAlgoNum * MultiAlgoAveragingInterval fiveAlgoParams 11).toNat
        (demoChainFrom 11) = demoChainFrom 1 ∧
      (GetNextMultiAlgoWorkRequired demoUnbound (demoChainFrom 11) (demoHeader 12)
        fiveAlgoParams) = .ok (GetCompact (demoUnbound.bnNew % 2 ^ 256)) ∧
      (multiAlgoTimespans demoUnbound (demoBlock 11 11) (demoBlock 1 1)
        fiveAlgoParams).nAveragingTargetTimespan = 360 ∧
      MultiAlgoAveragingTargetTimespan fiveAlgoParams 11 = 1800 ∧
      MultiAlgoAveragingInterval fiveAlgoParams 11 * fiveAlgoParams.nMultiAlgoNum *
        MultiAlgoTimespan fiveAlgoParams 11 = 1800 := by
  refine ⟨by decide, by rfl, by decide, by decide, by decide⟩

/-- C15 (the code at the failing input): before the difficulty-formula change the damping
reads `nAveragingTargetTimespan` before it is assigned.  For a raw timespan of `1000` the
damped value is `250` when the variable holds `0` and `3250` when it holds `4000`; with the
averaging target timespan `A = 180` of the height, `A + (1000 - A) / 4` is `385`. -/
theorem damping_reads_unassigned :
    GetNextMultiAlgoWorkRequired demoUnbound
        [demoBlockMedian 3 3 1000, demoBlockMedian 2 2 0] (demoHeader 4) preChangeParams =
      .ok (GetCompact (demoUnbound.bnNew % 2 ^ 256)) ∧
      (multiAlgoTimespans demoUnbound (demoBlockMedian 3 3 1000) (demoBlockMedian 2 2 0)
        preChangeParams).nActualTimespan = 250 ∧
      (multiAlgoTimespans otherUnbound (demoBlockMedian 3 3 1000) (demoBlockMedian 2 2 0)
        preChangeParams).nActualTimespan = 3250 ∧
      MultiAlgoAveragingTargetTimespan preChangeParams 3 = 180 ∧
      MultiAlgoAveragingTargetTimespan preChangeParams 3 +
        ((1000 : Int) - 0 - MultiAlgoAveragingTargetTimespan preChangeParams 3).tdiv 4 = 385 := by
  refine ⟨by rfl, by decide, by decide, by decide, by decide⟩

/-! ## The legacy timespan fork -/

/-- C19 (the code at the failing input): the timespan changes from 2 to 4 at height 4.  For a
tip at height 3 the boundary test uses the revised interval `4 / 1 = 4` (so the tip is on a
boundary) while `CalculateNextWorkRequired` selects the original timespan `2`; four blocks at
the floor spaced one second apart are retargeted by `3 / 2` and stay at the floor, where the
revised timespan gives `0x1e0bffff`. -/
theorem timespan_generation_mismatch :
    DifficultyAdjustmentInterval timespanForkParams (3 + 1) = .ok 4 ∧
      cmod (3 + 1) 4 = .ok 0 ∧
      legacyTargetTimespan (demoBlock 3 3) timespanForkParams = 2 ∧
      legacyTargetTimespan (demoBlock 3 3) timespanForkParams ≠
        4 * timespanForkParams.nPowTargetSpacing ∧
      GetNextWorkRequired demoUnbound (demoChainFrom 3) (demoHeader 4) timespanForkParams =
        .ok 0x1e0fffff ∧
      retarget 0x1e0fffff 3 4 timespanForkParams.powLimit = .ok 0x1e0bffff := by
  refine ⟨by decide, by decide, by decide, by decide, by decide, by decide⟩

/-! ## The legacy retarget returns a value below the floor -/

/-- A positive timespan that fits `int64_t` converts to a non-zero divisor. -/
theorem toU64_ne_zero (T : Int) (hpos : 0 < T) (hfit : T < 2 ^ 63) : toU64 T ≠ 0 := by
  unfold toU64
  rw [Int.emod_eq_of_lt (le_of_lt hpos) (by omega)]
  omega

/-- C17: with retargeting enabled and a positive selected target timespan (one that fits
`int64_t`), `CalculateNextWorkRequired` returns a compact value, and that value decodes to a
target of at most `powLimit`, whatever the tip's bits. -/
theorem CalculateNextWorkRequired_floor (tip : CBlockIndex) (nFirstBlockTime : Int)
    (params : Params) (hretarget : params.fPowNoRetargeting = false)
    (hpos : 0 < legacyTargetTimespan tip params)
    (hfit : legacyTargetTimespan tip params < 2 ^ 63) :
    ∃ r, CalculateNextWorkRequired tip nFirstBlockTime params = .ok r ∧
      (SetCompact r).target ≤ UintToArith256 params.powLimit := by
  have hne := toU64_ne_zero _ hpos hfit
  have hcalc : CalculateNextWorkRequired tip nFirstBlockTime params =
      retarget tip.nBits (legacyActualTimespan tip nFirstBlockTime params)
        (legacyTargetTimespan tip params) params.powLimit := by
    simp [CalculateNextWorkRequired, hretarget]
  cases hres : retarget tip.nBits (legacyActualTimespan tip nFirstBlockTime params)
      (legacyTargetTimespan tip params) params.powLimit with
  | error e =>
    exfalso
    unfold retarget at hres
    simp [divU256, hne, bind, Except.bind] at hres
  | ok r => exact ⟨r, by rw [hcalc, hres], retarget_le _ _ _ _ _ hres⟩

/-- Witness for C17: `demoParams` (`T = 4`) and a tip with bits far above the floor. -/
theorem CalculateNextWorkRequired_floor_witness :
    ∃ r, CalculateNextWorkRequired (demoBlockBits 3 3 0x20ffffff) 0 demoParams = .ok r ∧
      (SetCompact r).target ≤ UintToArith256 demoParams.powLimit :=
  CalculateNextWorkRequired_floor (demoBlockBits 3 3 0x20ffffff) 0 demoParams (by decide)
    (by decide) (by decide)

/-! ## The legacy lookback stays on the chain -/

/-- On a well-formed chain the height of the tip is the number of its ancestors. -/
theorem wellFormed_height (pprev : Chain) (tip : CBlockIndex)
    (hwf : wellFormed (tip :: pprev) = true) : tip.nHeight = (pprev.length : Int) := by
  induction pprev generalizing tip with
  | nil => simpa [wellFormed] using hwf
  | cons prev rest ih =>
    simp only [wellFormed, Bool.and_eq_true, decide_eq_true_eq] at hwf
    rw [hwf.1, ih prev hwf.2, List.length_cons]
    push_cast
    rfl

/-- `CalculateNextWorkRequired` never fails an assertion. -/
theorem CalculateNextWorkRequired_ne_assertion (tip : CBlockIndex) (nFirstBlockTime : Int)
    (params : Params) :
    CalculateNextWorkRequired tip nFirstBlockTime params ≠ .error .assertion := by
  unfold CalculateNextWorkRequired retarget divU256
  simp only [bind, Except.bind]
  split_ifs <;> simp

/-- C18: on a well-formed chain and for a positive adjustment interval, the lookback walk of
every legacy retarget boundary ends on an existing node: the legacy branch calls
`CalculateNextWorkRequired` with that node's time and does not fail the assertion. -/
theorem lookback_on_chain (tip : CBlockIndex) (pprev : Chain) (pblock : CBlockHeader)
    (params : Params) (interval : Int)
    (hwf : wellFormed (tip :: pprev) = true)
    (hinterval : DifficultyAdjustmentInterval params (tip.nHeight + 1) = .ok interval)
    (hpos : 0 < interval)
    (hmod : cmod (tip.nHeight + 1) interval = .ok 0) :
    ∃ pindexFirst rest,
      goBack (if tip.nHeight + 1 = interval then interval - 1 else interval).toNat
          (tip :: pprev) = pindexFirst :: rest ∧
        GetNextWorkRequiredLegacy (tip :: pprev) pblock params =
          CalculateNextWorkRequired tip pindexFirst.nTime params ∧
        GetNextWorkRequiredLegacy (tip :: pprev) pblock params ≠ .error .assertion := by
  have hheight := wellFormed_height pprev tip hwf
  have hne : interval ≠ 0 := by omega
  have htmod : (tip.nHeight + 1).tmod interval = 0 := by
    simpa [cmod, hne] using hmod
  have hdepth : (if tip.nHeight + 1 = interval then interval - 1 else interval).toNat <
      (tip :: pprev).length := by
    rw [List.length_cons]
    split_ifs with hfirst
    · omega
    · obtain ⟨c, hc⟩ := Int.dvd_of_tmod_eq_zero htmod
      have hc2 : 2 ≤ c := by
        by_contra hlt
        have hcases : c ≤ 0 ∨ c = 1 := by omega
        rcases hcases with hle | hone
        · have : interval * c ≤ 0 := Int.mul_nonpos_of_nonneg_of_nonpos (le_of_lt hpos) hle
          omega
        · rw [hone, mul_one] at hc
          exact hfirst hc
      have : interval * 2 ≤ interval * c := Int.mul_le_mul_of_nonneg_left hc2 (le_of_lt hpos)
      omega
  have hblocks : blocksToGoBack params tip.nHeight =
      .ok (if tip.nHeight + 1 = interval then interval - 1 else interval) := by
    unfold blocksToGoBack
    simp only [hinterval, bind, Except.bind]
    by_cases h : tip.nHeight + 1 = interval <;> simp [h]
  cases hwalk : goBack (if tip.nHeight + 1 = interval then interval - 1 else interval).toNat
      (tip :: pprev) with
  | nil =>
    exfalso
    rw [goBack_eq_drop, List.drop_eq_nil_iff] at hwalk
    omega
  | cons pindexFirst rest =>
    have hlegacy : GetNextWorkRequiredLegacy (tip :: pprev) pblock params =
        CalculateNextWorkRequired tip pindexFirst.nTime params := by
      unfold GetNextWorkRequiredLegacy
      simp only [hinterval, hmod, hblocks, bind, Except.bind, ne_eq, not_true_eq_false,
        if_false, hwalk]
    exact ⟨pindexFirst, rest, rfl, hlegacy,
      hlegacy ▸ CalculateNextWorkRequired_ne_assertion _ _ _⟩

/-- Witness for C18: the chain of heights 7 to 0 under `demoParams` (interval 4); the second
retarget walks four links back to height 3. -/
theorem lookback_on_chain_witness :
    ∃ pindexFirst rest,
      goBack (if (7 : Int) + 1 = 4 then (4 : Int) - 1 else 4).toNat (demoChainFrom 7) =
          pindexFirst :: rest ∧
        GetNextWorkRequiredLegacy (demoChainFrom 7) (demoHeader 8) demoParams =
          CalculateNextWorkRequired (demoBlock 7 7) pindexFirst.nTime demoParams ∧
        GetNextWorkRequiredLegacy (demoChainFrom 7) (demoHeader 8) demoParams ≠
          .error .assertion :=
  lookback_on_chain (demoBlock 7 7) (demoChainFrom 6) (demoHeader 8) demoParams 4 (by decide)
    (by decide) (by decide) (by decide)

/-! ## The minimum-difficulty walk-back -/

/-- The walk passes every entry that has a parent, a height off its adjustment interval and
bits at the floor, and returns the bits of the first entry that has no parent, or a height on
its interval, or other bits. -/
theorem lastNonMinDifficultyBits_nearest (params : Params) (nProofOfWorkLimit : Nat)
    (skipped : Chain) (n : CBlockIndex) (rest : Chain)
    (hskipped : ∀ s ∈ skipped, ∃ interval m,
      DifficultyAdjustmentInterval params s.nHeight = .ok interval ∧
        cmod s.nHeight interval = .ok m ∧ m ≠ 0 ∧ s.nBits = nProofOfWorkLimit)
    (hstop : rest = [] ∨ ∃ interval m,
      DifficultyAdjustmentInterval params n.nHeight = .ok interval ∧
        cmod n.nHeight interval = .ok m ∧ (m = 0 ∨ n.nBits ≠ nProofOfWorkLimit)) :
    lastNonMinDifficultyBits params nProofOfWorkLimit (skipped ++ n :: rest) = .ok n.nBits := by
  induction skipped with
  | nil =>
    cases rest with
    | nil => rfl
    | cons prev rest =>
      rcases hstop with hnil | ⟨interval, m, hinterval, hmod, hm⟩
      · simp at hnil
      · simp only [List.nil_append, lastNonMinDifficultyBits, hinterval, hmod, bind,
          Except.bind]
        rcases hm with hm | hm
        · simp [hm]
        · simp [hm]
  | cons s skipped ih =>
    obtain ⟨interval, m, hinterval, hmod, hm, hbits⟩ := hskipped s (List.mem_cons_self _ _)
    have ih := ih (fun t ht => hskipped t (List.mem_cons_of_mem _ ht))
    cases htail : skipped ++ n :: rest with
    | nil => simp at htail
    | cons prev tail =>
      rw [htail] at ih
      simp only [List.cons_append, htail, lastNonMinDifficultyBits, hinterval, hmod, bind,
        Except.bind]
      simp [hm, hbits, ih]

/-- C16: at a legacy off-boundary height with minimum-difficulty blocks allowed,
`GetNextWorkRequired` returns the compact floor when the candidate's time is more than twice
the target spacing after the tip's, and otherwise the bits of the nearest node `n` among the
tip and its ancestors that has no parent, or whose height is on its adjustment interval, or
whose bits differ from the compact floor (every node before `n` having a parent, a height off
its interval and bits at the floor). -/
theorem min_difficulty_walk_back (u : Unbound) (tip : CBlockIndex) (pprev : Chain)
    (pblock : CBlockHeader) (params : Params) (interval r : Int)
    (hfork : tip.nHeight + 1 < params.MultiAlgoForkHeight)
    (hinterval : DifficultyAdjustmentInterval params (tip.nHeight + 1) = .ok interval)
    (hmod : cmod (tip.nHeight + 1) interval = .ok r) (hr : r ≠ 0)
    (hmin : params.fPowAllowMinDifficultyBlocks = true) :
    (pblock.nTime > tip.nTime + params.nPowTargetSpacing * 2 →
        GetNextWorkRequired u (tip :: pprev) pblock params =
          .ok (GetCompact (UintToArith256 params.powLimit))) ∧
      (pblock.nTime ≤ tip.nTime + params.nPowTargetSpacing * 2 →
        ∀ (skipped : Chain) (n : CBlockIndex) (rest : Chain),
          tip :: pprev = skipped ++ n :: rest →
          (∀ s ∈ skipped, ∃ i m, DifficultyAdjustmentInterval params s.nHeight = .ok i ∧
            cmod s.nHeight i = .ok m ∧ m ≠ 0 ∧
            s.nBits = GetCompact (UintToArith256 params.powLimit)) →
          (rest = [] ∨ ∃ i m, DifficultyAdjustmentInterval params n.nHeight = .ok i ∧
            cmod n.nHeight i = .ok m ∧
            (m = 0 ∨ n.nBits ≠ GetCompact (UintToArith256 params.powLimit))) →
          GetNextWorkRequired u (tip :: pprev) pblock params = .ok n.nBits) := by
  constructor
  · intro hlate
    simp [GetNextWorkRequired, GetNextWorkRequiredLegacy, hfork, hinterval, hmod, hr, hmin,
      hlate, bind, Except.bind]
  · intro hearly skipped n rest hsplit hskipped hstop
    have hnot : ¬ pblock.nTime > tip.nTime + params.nPowTargetSpacing * 2 := by omega
    have hwalk := lastNonMinDifficultyBits_nearest params
      (GetCompact (UintToArith256 params.powLimit)) skipped n rest hskipped hstop
    rw [← hsplit] at hwalk
    simp only [GetNextWorkRequired, if_pos hfork, GetNextWorkRequiredLegacy, hinterval, hmod,
      bind, Except.bind, ne_eq, hr, not_false_eq_true, if_true, hmin, hnot, if_false, hwalk]

/-- Witness for C16: minimum-difficulty blocks allowed, a tip at height 2 and its parent at
the floor, genesis with bits `0x1d00ffff`; a candidate one second after the tip gets the bits
of genesis. -/
theorem min_difficulty_walk_back_witness :
    GetNextWorkRequired demoUnbound
        [demoBlock 2 2, demoBlock 1 1, demoBlockBits 0 0 0x1d00ffff] (demoHeader 3)
        minDifficultyParams = .ok 0x1d00ffff :=
  (min_difficulty_walk_back demoUnbound (demoBlock 2 2)
    [demoBlock 1 1, demoBlockBits 0 0 0x1d00ffff] (demoHeader 3) minDifficultyParams 4 3
    (by decide) (by decide) (by decide) (by decide) (by decide)).2 (by decide)
    [demoBlock 2 2, demoBlock 1 1] (demoBlockBits 0 0 0x1d00ffff) [] rfl
    (by
      intro s hs
      simp only [List.mem_cons, List.mem_singleton, List.not_mem_nil, or_false] at hs
      rcases hs with rfl | rfl
      · exact ⟨4, 2, by decide, by decide, by decide, by decide⟩
      · exact ⟨4, 1, by decide, by decide, by decide, by decide⟩)
    (Or.inl rfl)

/-! ## Codec round trip -/

/-- A non-zero bit length points at a set bit: the number is at least `2 ^ (length - 1)`. -/
theorem bitsFrom_lower (k x : Nat) (h : bitsFrom k x ≠ 0) : 2 ^ (bitsFrom k x - 1) ≤ x := by
  induction k with
  | zero => simp [bitsFrom] at h
  | succ k ih =>
    unfold bitsFrom at h ⊢
    split_ifs at h ⊢ with hk
    · simpa using hk
    · exact ih h

/-- A power of two that is at most a number below another power of two has the smaller
exponent. -/
theorem exponent_lt_of_le_of_lt (a b x : Nat) (hle : 2 ^ a ≤ x) (hlt : x < 2 ^ b) : a < b := by
  by_contra hge
  have : 2 ^ b ≤ 2 ^ a := Nat.pow_le_pow_right (by norm_num) (by omega)
  omega

/-- On a 24-bit word the sign test `word & 0x00800000` sees exactly the words from `2 ^ 23`
on. -/
theorem sign_bit_iff (c : Nat) (hc : c < 2 ^ 24) : c &&& 0x00800000 ≠ 0 ↔ 2 ^ 23 ≤ c := by
  have h23 : (0x00800000 : Nat) = 2 ^ 23 := by norm_num
  rw [h23, Nat.and_two_pow, Nat.testBit_to_div_mod]
  by_cases hbit : c / 2 ^ 23 % 2 = 1
  · simp only [hbit, decide_True, Bool.toNat_true, one_mul]
    constructor
    · intro _
      omega
    · intro _
      norm_num
  · simp only [hbit, decide_False, Bool.toNat_false, zero_mul, ne_eq, not_true_eq_false,
      false_iff, not_le]
    omega

/-- Decoding a compact value assembled from a 23-bit mantissa `m` and a size `n` gives `m`
shifted by `n - 3` bytes. -/
theorem SetCompact_assembled (m n : Nat) (hm : m < 2 ^ 23) (hn : n ≤ 33) :
    (SetCompact ((m ||| (n <<< 24)) % 2 ^ 32)).target =
      if n ≤ 3 then m >>> (8 * (3 - n)) else (m <<< (8 * (n - 3))) % 2 ^ 256 := by
  have hm24 : m < 2 ^ 24 := by omega
  have hor : m ||| (n <<< 24) = 2 ^ 24 * n + m := by
    rw [Nat.lor_comm, Nat.shiftLeft_eq, Nat.mul_comm, ← Nat.mul_add_lt_is_or hm24]
  have hlt : 2 ^ 24 * n + m < 2 ^ 32 := by omega
  rw [hor, Nat.mod_eq_of_lt hlt]
  have hsize : (2 ^ 24 * n + m) >>> 24 = n := by
    rw [Nat.shiftRight_eq_div_pow]
    omega
  have hword : (2 ^ 24 * n + m) &&& 0x007fffff = m := by
    have h23 : (0x007fffff : Nat) = 2 ^ 23 - 1 := by norm_num
    rw [h23, Nat.and_pow_two_sub_one_eq_mod]
    omega
  unfold SetCompact
  simp only [hsize, hword]
  split_ifs <;> rfl

/-- Encoding and decoding again is exact on every 256-bit number made of at most 23
significant bits above a whole number of zero bytes. -/
theorem SetCompact_GetCompact_exact (x k : Nat) (hx : x < 2 ^ 256) (hdvd : 2 ^ (8 * k) ∣ x)
    (hlt : x < 2 ^ (23 + 8 * k)) : (SetCompact (GetCompact x)).target = x := by
  obtain ⟨hb1, hb2⟩ := bitsFrom_spec 256 x hx
  have hn : (bits x + 7) / 8 ≤ 32 := by
    unfold bits
    omega
  have hxn : x < 2 ^ (8 * ((bits x + 7) / 8)) :=
    lt_of_lt_of_le hb1 (Nat.pow_le_pow_right (by norm_num) (by unfold bits; omega))
  have hxl : 3 < (bits x + 7) / 8 → 2 ^ (8 * ((bits x + 7) / 8 - 3) + 16) ≤ x := by
    intro h3
    have hbx : bits x = bitsFrom 256 x := rfl
    have hbits : bitsFrom 256 x ≠ 0 := by omega
    exact le_trans (Nat.pow_le_pow_right (by norm_num) (by omega)) (bitsFrom_lower 256 x hbits)
  unfold GetCompact
  simp only []
  generalize (bits x + 7) / 8 = n at hn hxn hxl ⊢
  by_cases h3 : n ≤ 3
  · simp only [h3, if_true]
    have hc0 : ((x % 2 ^ 64) <<< (8 * (3 - n))) % 2 ^ 32 = x * 2 ^ (8 * (3 - n)) ∧
        x * 2 ^ (8 * (3 - n)) < 2 ^ 24 := by
      interval_cases n <;> simp [Nat.shiftLeft_eq] at hxn ⊢ <;> omega
    have hsign : decide (x * 2 ^ (8 * (3 - n)) &&& 0x00800000 ≠ 0) =
        decide (2 ^ 23 ≤ x * 2 ^ (8 * (3 - n))) := by
      simp only [decide_eq_decide]
      exact sign_bit_iff _ hc0.2
    rw [hc0.1, hsign]
    by_cases hs : 2 ^ 23 ≤ x * 2 ^ (8 * (3 - n))
    · simp only [hs, decide_True, if_true]
      rw [SetCompact_assembled _ (n + 1) ?_ (by omega)]
      · by_cases h2 : n ≤ 2
        · interval_cases n <;> simp [Nat.shiftRight_eq_div_pow] <;> omega
        · have hn3 : n = 3 := by omega
          subst hn3
          have hk : k ≠ 0 := by
            rintro rfl
            simp at hs hlt
            omega
          have h256 : 2 ^ 8 ∣ x :=
            Dvd.dvd.trans (Nat.pow_dvd_pow 2 (by omega)) hdvd
          simp only [show ¬ (3 + 1 ≤ 3) by omega, if_false, Nat.shiftRight_eq_div_pow,
            Nat.shiftLeft_eq, Nat.sub_self, Nat.mul_zero, pow_zero, Nat.mul_one]
          rw [show 8 * (3 + 1 - 3) = 8 by norm_num, Nat.div_mul_cancel h256,
            Nat.mod_eq_of_lt hx]
      · rw [Nat.shiftRight_eq_div_pow]
        omega
    · simp only [hs, decide_False, Bool.false_eq_true, if_false]
      rw [SetCompact_assembled _ n (by omega) (by omega)]
      simp only [h3, if_true, Nat.shiftRight_eq_div_pow]
      rw [Nat.mul_div_cancel _ (by positivity)]
  · simp only [h3, if_false]
    have hsplit : 8 * n = 8 * (n - 3) + 24 := by omega
    have hc0lt : x / 2 ^ (8 * (n - 3)) < 2 ^ 24 := by
      rw [Nat.div_lt_iff_lt_mul (by positivity), ← pow_add, Nat.add_comm, ← hsplit]
      exact hxn
    have hc0 : ((x >>> (8 * (n - 3))) % 2 ^ 64) % 2 ^ 32 = x / 2 ^ (8 * (n - 3)) := by
      have h64 : x / 2 ^ (8 * (n - 3)) < 2 ^ 64 := by omega
      have h32 : x / 2 ^ (8 * (n - 3)) < 2 ^ 32 := by omega
      rw [Nat.shiftRight_eq_div_pow, Nat.mod_eq_of_lt h64, Nat.mod_eq_of_lt h32]
    have hlow := hxl (by omega)
    have hk : 8 * (n - 3) ≤ 8 * k := by
      have := exponent_lt_of_le_of_lt _ _ x hlow hlt
      omega
    have hsign : decide (x / 2 ^ (8 * (n - 3)) &&& 0x00800000 ≠ 0) =
        decide (2 ^ 23 ≤ x / 2 ^ (8 * (n - 3))) := by
      simp only [decide_eq_decide]
      exact sign_bit_iff _ hc0lt
    rw [hc0, hsign]
    by_cases hs : 2 ^ 23 ≤ x / 2 ^ (8 * (n - 3))
    · simp only [hs, decide_True, if_true]
      have hbig : 2 ^ (23 + 8 * (n - 3)) ≤ x := by
        rw [pow_add]
        exact le_trans (Nat.mul_le_mul_right _ hs) (Nat.div_mul_le_self _ _)
      have hk8 : 8 * (n - 3) + 8 ≤ 8 * k := by
        have := exponent_lt_of_le_of_lt _ _ x hbig hlt
        omega
      have hdvd8 : 2 ^ (8 * (n - 3) + 8) ∣ x :=
        Dvd.dvd.trans (Nat.pow_dvd_pow 2 hk8) hdvd
      rw [SetCompact_assembled _ (n + 1) ?_ (by omega)]
      · have h4 : ¬ n + 1 ≤ 3 := by omega
        have h8 : 8 * (n + 1 - 3) = 8 * (n - 3) + 8 := by omega
        simp only [h4, if_false, Nat.shiftLeft_eq, Nat.shiftRight_eq_div_pow]
        rw [Nat.div_div_eq_div_mul, ← pow_add, h8, Nat.div_mul_cancel hdvd8,
          Nat.mod_eq_of_lt hx]
      · rw [Nat.shiftRight_eq_div_pow]
        omega
    · simp only [hs, decide_False, Bool.false_eq_true, if_false]
      have hdvd0 : 2 ^ (8 * (n - 3)) ∣ x := Dvd.dvd.trans (Nat.pow_dvd_pow 2 hk) hdvd
      rw [SetCompact_assembled _ n (by omega) (by omega)]
      simp only [h3, if_false, Nat.shiftLeft_eq]
      rw [Nat.div_mul_cancel hdvd0, Nat.mod_eq_of_lt hx]

/-- A compact value decoded without overflow is a 256-bit number made of at most 23
significant bits above a whole number of zero bytes. -/
theorem SetCompact_target_form (nBits : Nat) (hovf : (SetCompact nBits).fOverflow = false) :
    (SetCompact nBits).target < 2 ^ 256 ∧
      ∃ k, 2 ^ (8 * k) ∣ (SetCompact nBits).target ∧
        (SetCompact nBits).target < 2 ^ (23 + 8 * k) := by
  have hword : nBits &&& 0x007fffff < 2 ^ 23 := by
    have h23 : (0x007fffff : Nat) = 2 ^ 23 - 1 := by norm_num
    rw [h23, Nat.and_pow_two_sub_one_eq_mod]
    exact Nat.mod_lt _ (by positivity)
  unfold SetCompact at hovf ⊢
  simp only [] at hovf ⊢
  generalize nBits &&& 0x007fffff = w at hword hovf ⊢
  generalize nBits >>> 24 = nSize at hovf ⊢
  by_cases h3 : nSize ≤ 3
  · simp only [h3, if_true]
    have hle : w >>> (8 * (3 - nSize)) ≤ w := by
      rw [Nat.shiftRight_eq_div_pow]
      exact Nat.div_le_self _ _
    exact ⟨by omega, 0, by simp, by simpa using lt_of_le_of_lt hle hword⟩
  · simp only [h3, if_false] at hovf ⊢
    by_cases hw : w = 0
    · subst hw
      simp only [Nat.zero_shiftLeft, Nat.zero_mod]
      exact ⟨by positivity, 0, by simp, by positivity⟩
    · have hfit : w * 2 ^ (8 * (nSize - 3)) < 2 ^ 256 := by
        simp only [ne_eq, hw, not_false_eq_true, decide_True, Bool.true_and, Bool.or_eq_false_iff,
          Bool.and_eq_false_imp, decide_eq_true_eq, decide_eq_false_iff_not, not_lt] at hovf
        obtain ⟨⟨h34, h33⟩, h32⟩ := hovf
        by_cases hbig : w > 0xffff
        · have hs := h32 hbig
          calc w * 2 ^ (8 * (nSize - 3)) < 2 ^ 23 * 2 ^ (8 * (nSize - 3)) :=
                Nat.mul_lt_mul_of_pos_right hword (by positivity)
            _ = 2 ^ (23 + 8 * (nSize - 3)) := by rw [pow_add]
            _ ≤ 2 ^ 256 := Nat.pow_le_pow_right (by norm_num) (by omega)
        · by_cases hmid : w > 0xff
          · have hs := h33 hmid
            have hw16 : w < 2 ^ 16 := by omega
            calc w * 2 ^ (8 * (nSize - 3)) < 2 ^ 16 * 2 ^ (8 * (nSize - 3)) :=
                  Nat.mul_lt_mul_of_pos_right hw16 (by positivity)
              _ = 2 ^ (16 + 8 * (nSize - 3)) := by rw [pow_add]
              _ ≤ 2 ^ 256 := Nat.pow_le_pow_right (by norm_num) (by omega)
          · have hw8 : w < 2 ^ 8 := by omega
            calc w * 2 ^ (8 * (nSize - 3)) < 2 ^ 8 * 2 ^ (8 * (nSize - 3)) :=
                  Nat.mul_lt_mul_of_pos_right hw8 (by positivity)
              _ = 2 ^ (8 + 8 * (nSize - 3)) := by rw [pow_add]
              _ ≤ 2 ^ 256 := Nat.pow_le_pow_right (by norm_num) (by omega)
      rw [Nat.shiftLeft_eq, Nat.mod_eq_of_lt hfit]
      refine ⟨hfit, nSize - 3, Dvd.intro_left _ rfl, ?_⟩
      rw [pow_add]
      exact Nat.mul_lt_mul_of_pos_right hword (by positivity)

/-- C12: for every compact value whose decoding reports neither negative nor overflow,
encoding the decoded target and decoding again gives the same target. -/
theorem codec_round_trip (nBits : Nat) (_hneg : (SetCompact nBits).fNegative = false)
    (hovf : (SetCompact nBits).fOverflow = false) :
    (SetCompact (GetCompact (SetCompact nBits).target)).target = (SetCompact nBits).target := by
  obtain ⟨hlt, k, hdvd, hk⟩ := SetCompact_target_form nBits hovf
  exact SetCompact_GetCompact_exact _ k hlt hdvd hk

/-- Witness for C12: the compact value `0x1d00ffff` decodes to `0xffff * 2 ^ 208`, which
encodes back to `0x1d00ffff`. -/
theorem codec_round_trip_witness :
    (SetCompact 0x1d00ffff).target = 0xffff * 2 ^ 208 ∧
      GetCompact (SetCompact 0x1d00ffff).target = 0x1d00ffff ∧
      (SetCompact (GetCompact (SetCompact 0x1d00ffff).target)).target =
        (SetCompact 0x1d00ffff).target :=
  ⟨by decide, by decide, codec_round_trip 0x1d00ffff (by decide) (by decide)⟩

/-! ## The legacy retarget without wrap-around -/

/-- A non-negative `int64_t` converts to itself. -/
theorem toU64_eq_toNat (a : Int) (h0 : 0 ≤ a) (hfit : a < 2 ^ 63) : toU64 a = a.toNat := by
  unfold toU64
  rw [Int.emod_eq_of_lt h0 (by omega)]

/-- The comparison of the code with a floor is the minimum. -/
theorem clamp_eq_min (x powLimit : Nat) :
    (if x > powLimit then powLimit else x) = min powLimit x := by
  rw [Nat.min_def]
  split_ifs <;> omega

/-- A target below `P`, multiplied by a timespan of at most `4 * T`, stays below `2 ^ 256`
when `P * 4 * T` does. -/
theorem mul_timespan_lt (x P a T : Nat) (hx : x < P) (ha : a ≤ 4 * T) (hT : 0 < T)
    (hP : P * 4 * T ≤ 2 ^ 256) : x * a < 2 ^ 256 := by
  have h1 : x * a ≤ x * (4 * T) := Nat.mul_le_mul_left _ ha
  have h2 : x * (4 * T) < P * (4 * T) := Nat.mul_lt_mul_of_pos_right hx (by omega)
  have h3 : P * (4 * T) = P * 4 * T := by ring
  omega

/-- Multiplying by at most `4 * T` and dividing by `T` gives at most four times the number. -/
theorem mul_div_timespan_le (x a T : Nat) (ha : a ≤ 4 * T) : x * a / T ≤ 4 * x := by
  apply Nat.div_le_of_le_mul
  calc x * a ≤ x * (4 * T) := Nat.mul_le_mul_left _ ha
    _ = T * (4 * x) := by ring

/-- The retarget proper agrees with the formula over unbounded integers, and neither its
multiplication nor its restoring shift exceeds 256 bits, when the old target is at most the
floor, the timespan lies in `[0, 4 * T]`, `2 ^ (bits floor - 1) * 4 * T ≤ 2 ^ 256` and the
floor has at most 254 bits. -/
theorem retarget_eq_specRetarget (nBits : Nat) (a T : Int) (powLimit : Nat) (ha0 : 0 ≤ a)
    (ha : a ≤ T * 4) (hpos : 0 < T) (hfit : T * 4 < 2 ^ 63)
    (hold : (SetCompact nBits).target ≤ UintToArith256 powLimit)
    (hmul : 2 ^ (bits (UintToArith256 powLimit) - 1) * 4 * T.toNat ≤ 2 ^ 256)
    (hshift : bits (UintToArith256 powLimit) ≤ 254) :
    retarget nBits a T powLimit =
        .ok (specRetarget (SetCompact nBits).target (UintToArith256 powLimit) a.toNat
          T.toNat) ∧
      ((SetCompact nBits).target >>>
          (if (bits (SetCompact nBits).target : Int) >
            (bits (UintToArith256 powLimit) : Int) - 1 then 1 else 0)) * a.toNat < 2 ^ 256 ∧
      ((((SetCompact nBits).target >>>
          (if (bits (SetCompact nBits).target : Int) >
            (bits (UintToArith256 powLimit) : Int) - 1 then 1 else 0)) * a.toNat) / T.toNat) <<<
        (if (bits (SetCompact nBits).target : Int) >
          (bits (UintToArith256 powLimit) : Int) - 1 then 1 else 0) < 2 ^ 256 := by
  have hpl256 : UintToArith256 powLimit < 2 ^ 256 := Nat.mod_lt _ (by positivity)
  have hplL : UintToArith256 powLimit < 2 ^ bits (UintToArith256 powLimit) :=
    (bitsFrom_spec 256 _ hpl256).1
  have holdL : (SetCompact nBits).target < 2 ^ bits (SetCompact nBits).target :=
    (bitsFrom_spec 256 _ (by omega)).1
  have htoa : toU64 a = a.toNat := toU64_eq_toNat a ha0 (by omega)
  have htoT : toU64 T = T.toNat := toU64_eq_toNat T (by omega) (by omega)
  have hTpos : 0 < T.toNat := by omega
  have hTne : T.toNat ≠ 0 := by omega
  have haT : a.toNat ≤ 4 * T.toNat := by omega
  unfold retarget specRetarget mulU256 divU256
  simp only [bind, Except.bind, htoa, htoT, hTne, if_false]
  generalize (SetCompact nBits).target = old at hold holdL ⊢
  generalize UintToArith256 powLimit = pl at hold hmul hshift hpl256 hplL ⊢
  generalize a.toNat = a' at haT ⊢
  generalize T.toNat = T' at hmul hTpos hTne haT ⊢
  by_cases hL : bits pl = 0
  · have hpl0 : pl = 0 := by
      rw [hL] at hplL
      simpa using hplL
    have hold0 : old = 0 := by omega
    subst hpl0 hold0
    have hb0 : bits 0 = 0 := hL
    simp [hb0]
  · have hwrap : (bits pl + 2 ^ 32 - 1) % 2 ^ 32 = bits pl - 1 := by omega
    have hpow : 2 ^ bits pl = 2 * 2 ^ (bits pl - 1) := by
      obtain ⟨m, hm⟩ := Nat.exists_eq_succ_of_ne_zero hL
      rw [hm, Nat.succ_sub_one, pow_succ, Nat.mul_comm]
    have hpow2 : 2 ^ (bits pl - 1) * 8 ≤ 2 ^ 256 := by
      calc 2 ^ (bits pl - 1) * 8 = 2 ^ (bits pl - 1 + 3) := by rw [pow_add]; norm_num
        _ ≤ 2 ^ 256 := Nat.pow_le_pow_right (by norm_num) (by omega)
    rw [hwrap]
    by_cases hs : bits old > bits pl - 1
    · have hsI : (bits old : Int) > (bits pl : Int) - 1 := by omega
      have hhalf : old / 2 < 2 ^ (bits pl - 1) := by omega
      have hprod := mul_timespan_lt (old / 2) _ a' T' hhalf haT hTpos hmul
      have hquot := mul_div_timespan_le (old / 2) a' T' haT
      have hsh : old / 2 * a' / T' * 2 < 2 ^ 256 := by omega
      simp only [hs, hsI, decide_True, if_true, Nat.shiftRight_eq_div_pow, Nat.shiftLeft_eq,
        pow_one, Nat.mod_eq_of_lt hprod, Nat.mod_eq_of_lt hsh, clamp_eq_min]
      exact ⟨trivial, hprod, hsh⟩
    · have hsI : ¬ (bits old : Int) > (bits pl : Int) - 1 := by omega
      have hsmall : old < 2 ^ (bits pl - 1) :=
        lt_of_lt_of_le holdL (Nat.pow_le_pow_right (by norm_num) (by omega))
      have hprod := mul_timespan_lt old _ a' T' hsmall haT hTpos hmul
      have hquot := mul_div_timespan_le old a' T' haT
      have hsh : old * a' / T' < 2 ^ 256 := by omega
      simp only [hs, hsI, decide_False, Bool.false_eq_true, if_false, Nat.shiftRight_zero,
        Nat.shiftLeft_zero, Nat.mod_eq_of_lt hprod, clamp_eq_min]
      exact ⟨trivial, hprod, hsh⟩

set_option maxRecDepth 8192 in
/-- C20 (counterexample): floor `2 ^ 255 - 1` (255 bits), `T = 1`, so that
`2 ^ 254 * 4 * 1 ≤ 2 ^ 256`; a tip with bits `0x20400000` (target `2 ^ 254`, at most the
floor) and a timespan limited to `4`.  The multiplication gives `2 ^ 255`, the restoring
shift wraps to `0`, and the code returns the encoding of `0`, where the formula over unbounded
integers gives the floor `0x207fffff`. -/
theorem retarget_wrap_counterexample :
    wideFloorParams.fPowNoRetargeting = false ∧
      (SetCompact 0x20400000).target = 2 ^ 254 ∧
      (SetCompact 0x20400000).target ≤ UintToArith256 wideFloorParams.powLimit ∧
      legacyTargetTimespan (demoBlockBits 3 8 0x20400000) wideFloorParams = 1 ∧
      bits (UintToArith256 wideFloorParams.powLimit) = 255 ∧
      2 ^ (255 - 1) * 4 * 1 ≤ 2 ^ 256 ∧
      legacyActualTimespan (demoBlockBits 3 8 0x20400000) 0 wideFloorParams = 4 ∧
      CalculateNextWorkRequired (demoBlockBits 3 8 0x20400000) 0 wideFloorParams = .ok 0 ∧
      specRetarget (2 ^ 254) (UintToArith256 wideFloorParams.powLimit) 4 1 = 0x207fffff ∧
      CalculateNextWorkRequired (demoBlockBits 3 8 0x20400000) 0 wideFloorParams ≠
        .ok (specRetarget (2 ^ 254) (UintToArith256 wideFloorParams.powLimit) 4 1) := by
  refine ⟨by decide, by decide, by decide, by decide, by decide, by decide, by decide, by decide,
    by decide, by decide⟩

/-- C20 (amended): with retargeting enabled, the tip's decoded target at most `powLimit`, a
selected target timespan `T > 0` (with `T * 4` inside `int64_t`),
`2 ^ (bits powLimit - 1) * 4 * T ≤ 2 ^ 256` and a floor of at most 254 bits, neither the
multiplication by the limited timespan nor the restoring shift of `CalculateNextWorkRequired`
exceeds 256 bits, and the result is the encoding of `min(powLimit, ((old >> s) * a / T) << s)`
computed over unbounded integers. -/
theorem legacy_retarget_no_wrap (tip : CBlockIndex) (nFirstBlockTime : Int) (params : Params)
    (hretarget : params.fPowNoRetargeting = false)
    (hold : (SetCompact tip.nBits).target ≤ UintToArith256 params.powLimit)
    (hpos : 0 < legacyTargetTimespan tip params)
    (hfit : legacyTargetTimespan tip params * 4 < 2 ^ 63)
    (hmul : 2 ^ (bits (UintToArith256 params.powLimit) - 1) * 4 *
      (legacyTargetTimespan tip params).toNat ≤ 2 ^ 256)
    (hshift : bits (UintToArith256 params.powLimit) ≤ 254) :
    CalculateNextWorkRequired tip nFirstBlockTime params =
        .ok (specRetarget (SetCompact tip.nBits).target (UintToArith256 params.powLimit)
          (legacyActualTimespan tip nFirstBlockTime params).toNat
          (legacyTargetTimespan tip params).toNat) ∧
      ((SetCompact tip.nBits).target >>>
          (if (bits (SetCompact tip.nBits).target : Int) >
            (bits (UintToArith256 params.powLimit) : Int) - 1 then 1 else 0)) *
        (legacyActualTimespan tip nFirstBlockTime params).toNat < 2 ^ 256 ∧
      ((((SetCompact tip.nBits).target >>>
          (if (bits (SetCompact tip.nBits).target : Int) >
            (bits (UintToArith256 params.powLimit) : Int) - 1 then 1 else 0)) *
        (legacyActualTimespan tip nFirstBlockTime params).toNat) /
          (legacyTargetTimespan tip params).toNat) <<<
        (if (bits (SetCompact tip.nBits).target : Int) >
          (bits (UintToArith256 params.powLimit) : Int) - 1 then 1 else 0) < 2 ^ 256 := by
  obtain ⟨hlo, hhi⟩ := limitAdjustmentStep_bounds (legacyTargetTimespan tip params)
    (tip.nTime - nFirstBlockTime) (le_of_lt hpos)
  have hq : 0 ≤ (legacyTargetTimespan tip params).tdiv 4 :=
    Int.tdiv_nonneg (le_of_lt hpos) (by norm_num)
  have ha0 : 0 ≤ legacyActualTimespan tip nFirstBlockTime params := le_trans hq hlo
  have hcalc : CalculateNextWorkRequired tip nFirstBlockTime params =
      retarget tip.nBits (legacyActualTimespan tip nFirstBlockTime params)
        (legacyTargetTimespan tip params) params.powLimit := by
    simp [CalculateNextWorkRequired, hretarget]
  rw [hcalc]
  exact retarget_eq_specRetarget tip.nBits _ _ params.powLimit ha0 hhi hpos hfit hold hmul hshift

/-- Witness for C20 (amended): `demoParams` (236-bit floor, `T = 4`) and a tip at the floor
three seconds after the first block: the result is `0x1e0bffff`. -/
theorem legacy_retarget_no_wrap_witness :
    CalculateNextWorkRequired (demoBlock 3 3) 0 demoParams = .ok 0x1e0bffff ∧
      specRetarget (SetCompact (demoBlock 3 3).nBits).target
          (UintToArith256 demoParams.powLimit) 3 4 = 0x1e0bffff :=
  ⟨(legacy_retarget_no_wrap (demoBlock 3 3) 0 demoParams (by decide) (by decide) (by decide)
      (by decide) (by decide) (by decide)).1,
    by decide⟩

end SmileyPow
